import Mathlib

/-!
Verification development for the zen-drive procedural world streaming core.

The JavaScript sources are shallowly embedded: numbers (IEEE doubles in the
source) are modelled as real numbers, `Math.sin`, `Math.cos` and `Math.sqrt`
as their exact real counterparts, and decimal literals as the corresponding
rationals.  Fallible lookups (`array[i]` past the end) are modelled with
`List.getD`; every claim exercises only in-bounds indices.  Stateful classes
become explicit records, and methods become functions from the record (and
their arguments) to results and updated records.
-/

namespace ZenDrive

noncomputable section

/-- Model of `MathUtils.lerp(a, b, t) = a + (b - a) * t`. -/
def mlerp (a b t : ℝ) : ℝ := a + (b - a) * t

/-- Model of the `Vec3` class of the math utilities: a triple of doubles. -/
@[ext]
structure Vec3 where
  x : ℝ
  y : ℝ
  z : ℝ

/-- Model of `Vec3.zero()`. -/
def Vec3.zero : Vec3 := ⟨0, 0, 0⟩

/-- Model of `Vec3.forward()`. -/
def Vec3.forward : Vec3 := ⟨0, 0, 1⟩

/-- Model of `Vec3.up()`. -/
def Vec3.up : Vec3 := ⟨0, 1, 0⟩

/-- Model of `Vec3.prototype.add`. -/
def Vec3.add (a b : Vec3) : Vec3 := ⟨a.x + b.x, a.y + b.y, a.z + b.z⟩

/-- Model of `Vec3.prototype.subtract`. -/
def Vec3.subtract (a b : Vec3) : Vec3 := ⟨a.x - b.x, a.y - b.y, a.z - b.z⟩

/-- Model of `Vec3.prototype.multiply` (scalar multiplication). -/
def Vec3.multiply (a : Vec3) (s : ℝ) : Vec3 := ⟨a.x * s, a.y * s, a.z * s⟩

/-- Model of `Vec3.prototype.dot`. -/
def Vec3.dot (a b : Vec3) : ℝ := a.x * b.x + a.y * b.y + a.z * b.z

/-- Model of `Vec3.prototype.length`: `Math.sqrt(x*x + y*y + z*z)`. -/
def Vec3.len (v : Vec3) : ℝ := Real.sqrt (v.x ^ 2 + v.y ^ 2 + v.z ^ 2)

/-- Model of `Vec3.prototype.normalize`: divide by the length when it is
positive, otherwise return the zero vector (the guard of the source against
division by zero). -/
def Vec3.normalize (v : Vec3) : Vec3 :=
  if 0 < v.len then ⟨v.x / v.len, v.y / v.len, v.z / v.len⟩ else Vec3.zero

/-- Model of `Vec3.prototype.distance` (subtract, then length). -/
def Vec3.dist (a b : Vec3) : ℝ := (a.subtract b).len

/-!  ### NoiseGenerator (src/unnamed/part_002)

`NoiseGenerator` keeps a seed and a 512-entry permutation table built once by
a seeded Fisher-Yates shuffle.  The `gradients` field built by
`generateGradients` is never read by any method of the class, so it is not
modelled.  `seededRandom(seed)` returns a closure whose k-th call evaluates
`frac(Math.sin(seed + k) * 10000)`; we model the closure as the explicit
stream of its outputs. -/

/-- Output of the k-th call of the closure returned by
`NoiseGenerator.seededRandom(seed)`: the fractional part of
`Math.sin(state) * 10000` where `state` starts at `seed` and increments by
one per call. -/
def seededRandomStream (seed : ℝ) (k : ℕ) : ℝ :=
  Int.fract (Real.sin (seed + k) * 10000)

/-- Swap the entries at positions `i` and `j` of a list (the destructuring
swap used by the shuffle). -/
def swapIdx (l : List ℕ) (i j : ℕ) : List ℕ :=
  let a := l.getD i 0
  let b := l.getD j 0
  (l.set i b).set j a

/-- Model of `NoiseGenerator.generatePermutation`: the identity table
`0..255` shuffled by the seeded stream (iteration `k` of the loop works on
index `i = 255 - k` and swaps with `j = floor(random() * (i + 1))`), then
duplicated to length 512. -/
def generatePermutation (seed : ℝ) : List ℕ :=
  let r := seededRandomStream seed
  let shuffled := (List.range 255).foldl
    (fun acc k =>
      let i := 255 - k
      swapIdx acc i (⌊r k * ((i : ℝ) + 1)⌋.toNat))
    (List.range 256)
  shuffled ++ shuffled

/-- Model of the `NoiseGenerator` object: its seed together with the
permutation table built at construction. -/
structure NoiseGenerator where
  seed : ℝ
  permutation : List ℕ

/-- Model of `new NoiseGenerator(seed)`. -/
def NoiseGenerator.mk' (seed : ℝ) : NoiseGenerator :=
  ⟨seed, generatePermutation seed⟩

/-- Model of `NoiseGenerator.fade`: the quintic smoothstep
`t*t*t*(t*(t*6-15)+10)`. -/
def fade (t : ℝ) : ℝ := t * t * t * (t * (t * 6 - 15) + 10)

/-- Model of `NoiseGenerator.lerp(a, b, t) = a + t * (b - a)`. -/
def nlerp (a b t : ℝ) : ℝ := a + t * (b - a)

/-- Model of `NoiseGenerator.grad(hash, x, y)`.  With `h = hash & 3`,
`u`/`v` select `x`/`y` (swapped when `h >= 2`) and the two sign bits are
`h & 1` and `h & 2`; for `h` in `0..3` the test `(h & 2) === 0` is `h < 2`. -/
def grad (hash : ℕ) (x y : ℝ) : ℝ :=
  let h := hash % 4
  let u := if h < 2 then x else y
  let v := if h < 2 then y else x
  (if h % 2 = 0 then u else -u) + (if h < 2 then v else -v)

/-- Model of `NoiseGenerator.perlin2D` over a given permutation table.  The
JavaScript `Math.floor(x) & 255` masks the (32-bit) floor to `0..255`, which
for the exercised range equals the floor modulo 256. -/
def perlin2D (perm : List ℕ) (x y : ℝ) : ℝ :=
  let X := (⌊x⌋ % 256).toNat
  let Y := (⌊y⌋ % 256).toNat
  let xf := x - ⌊x⌋
  let yf := y - ⌊y⌋
  let u := fade xf
  let v := fade yf
  let A := perm.getD X 0 + Y
  let AA := perm.getD A 0
  let AB := perm.getD (A + 1) 0
  let B := perm.getD (X + 1) 0 + Y
  let BA := perm.getD B 0
  let BB := perm.getD (B + 1) 0
  nlerp
    (nlerp (grad AA xf yf) (grad BA (xf - 1) yf) u)
    (nlerp (grad AB xf (yf - 1)) (grad BB (xf - 1) (yf - 1)) u)
    v

/-- Accumulator of the `octaveNoise2D` loop: octaves still to run, current
amplitude and frequency; returns `(value, maxValue)`. -/
def octaveAux (perm : List ℕ) (x y persistence : ℝ) :
    ℕ → ℝ → ℝ → ℝ × ℝ
  | 0, _, _ => (0, 0)
  | n + 1, amplitude, frequency =>
    let rest := octaveAux perm x y persistence n (amplitude * persistence) (frequency * 2)
    (perlin2D perm (x * frequency) (y * frequency) * amplitude + rest.1,
     amplitude + rest.2)

/-- Model of `NoiseGenerator.octaveNoise2D(x, y, octaves, persistence,
scale)`: amplitude-weighted sum of `perlin2D` samples, divided by the sum of
amplitudes. -/
def octaveNoise2D (perm : List ℕ) (x y : ℝ) (octaves : ℕ)
    (persistence scale : ℝ) : ℝ :=
  let p := octaveAux perm x y persistence octaves 1 scale
  p.1 / p.2

/-- Accumulator of the `ridgedNoise2D` loop: each octave contributes
`(1 - |n|)^2` instead of `n`. -/
def ridgedAux (perm : List ℕ) (x y persistence : ℝ) :
    ℕ → ℝ → ℝ → ℝ × ℝ
  | 0, _, _ => (0, 0)
  | n + 1, amplitude, frequency =>
    let rest := ridgedAux perm x y persistence n (amplitude * persistence) (frequency * 2)
    ((1 - |perlin2D perm (x * frequency) (y * frequency)|) ^ 2 * amplitude + rest.1,
     amplitude + rest.2)

/-- Model of `NoiseGenerator.ridgedNoise2D`. -/
def ridgedNoise2D (perm : List ℕ) (x y : ℝ) (octaves : ℕ)
    (persistence scale : ℝ) : ℝ :=
  let p := ridgedAux perm x y persistence octaves 1 scale
  p.1 / p.2

/-- Accumulator of the `billow2D` loop: each octave contributes `|n|`. -/
def billowAux (perm : List ℕ) (x y persistence : ℝ) :
    ℕ → ℝ → ℝ → ℝ × ℝ
  | 0, _, _ => (0, 0)
  | n + 1, amplitude, frequency =>
    let rest := billowAux perm x y persistence n (amplitude * persistence) (frequency * 2)
    (|perlin2D perm (x * frequency) (y * frequency)| * amplitude + rest.1,
     amplitude + rest.2)

/-- Model of `NoiseGenerator.billow2D`. -/
def billow2D (perm : List ℕ) (x y : ℝ) (octaves : ℕ)
    (persistence scale : ℝ) : ℝ :=
  let p := billowAux perm x y persistence octaves 1 scale
  p.1 / p.2

/-!  ### BiomeNoise (src/unnamed/part_002) -/

/-- The five biome labels returned by `BiomeNoise.getBiome`. -/
inductive Biome where
  | plains
  | forest
  | desert
  | mountain
  | city
deriving DecidableEq

/-- Model of the `BiomeNoise` object: four `NoiseGenerator`s for the four
noise channels. -/
structure BiomeNoise where
  temperature : NoiseGenerator
  humidity : NoiseGenerator
  elevation : NoiseGenerator
  density : NoiseGenerator

/-- Model of `new BiomeNoise(seed)`: channels seeded `seed`, `seed + 1000`,
`seed + 2000`, `seed + 3000`. -/
def mkBiomeNoise (seed : ℝ) : BiomeNoise :=
  ⟨NoiseGenerator.mk' seed, NoiseGenerator.mk' (seed + 1000),
   NoiseGenerator.mk' (seed + 2000), NoiseGenerator.mk' (seed + 3000)⟩

/-- Model of `BiomeNoise.getTemperature`:
`temperature.octaveNoise2D(x*0.001, y*0.001, 3, 0.6)`. -/
def getTemperature (bn : BiomeNoise) (x y : ℝ) : ℝ :=
  octaveNoise2D bn.temperature.permutation (x * (1 / 1000)) (y * (1 / 1000)) 3 (3 / 5) 1

/-- Model of `BiomeNoise.getHumidity`:
`humidity.octaveNoise2D(x*0.0008, y*0.0008, 3, 0.5)`. -/
def getHumidity (bn : BiomeNoise) (x y : ℝ) : ℝ :=
  octaveNoise2D bn.humidity.permutation (x * (1 / 1250)) (y * (1 / 1250)) 3 (1 / 2) 1

/-- Model of `BiomeNoise.getElevation`: `0.7 * base fractal + 0.3 * ridged`. -/
def getElevation (bn : BiomeNoise) (x y : ℝ) : ℝ :=
  octaveNoise2D bn.elevation.permutation (x * (1 / 2000)) (y * (1 / 2000)) 6 (7 / 10) 1 * (7 / 10) +
    ridgedNoise2D bn.elevation.permutation (x * (1 / 500)) (y * (1 / 500)) 4 (2 / 5) 1 * (3 / 10)

/-- Model of `BiomeNoise.getDensity`. -/
def getDensity (bn : BiomeNoise) (x y : ℝ) : ℝ :=
  octaveNoise2D bn.density.permutation (x * (3 / 1000)) (y * (3 / 1000)) 4 (1 / 2) 1

/-- Model of `BiomeNoise.getBiome`: the if-else-if chain of the source,
first match wins. -/
def getBiome (bn : BiomeNoise) (x y : ℝ) : Biome :=
  let temp := getTemperature bn x y
  let humidity := getHumidity bn x y
  let elevation := getElevation bn x y
  if elevation > 3 / 5 then Biome.mountain
  else if temp < -(3 / 10) then Biome.mountain
  else if humidity < -(3 / 10) ∧ temp > 1 / 5 then Biome.desert
  else if humidity > 2 / 5 ∧ temp > -(1 / 10) then Biome.forest
  else if elevation < 1 / 10 ∧ |temp| < 3 / 10 then Biome.city
  else Biome.plains

/-- Model of `BiomeNoise.getBlendedHeight(x, y, biome)`: biome-specific blend
of the elevation fractal and a secondary noise term. -/
def getBlendedHeight (bn : BiomeNoise) (x y : ℝ) (biome : Biome) : ℝ :=
  let elevation := getElevation bn x y
  match biome with
  | Biome.mountain =>
    elevation * 200 +
      ridgedNoise2D bn.elevation.permutation (x * (1 / 200)) (y * (1 / 200)) 3 (1 / 2) 1 * 100
  | Biome.desert =>
    elevation * 50 +
      billow2D bn.elevation.permutation (x * (1 / 125)) (y * (1 / 125)) 2 (1 / 2) 1 * 30
  | Biome.forest =>
    elevation * 80 +
      octaveNoise2D bn.elevation.permutation (x * (1 / 100)) (y * (1 / 100)) 2 (1 / 2) 1 * 20
  | Biome.city => max 0 (elevation * 20)
  | Biome.plains =>
    elevation * 60 +
      octaveNoise2D bn.elevation.permutation (x * (3 / 1000)) (y * (3 / 1000)) 3 (1 / 2) 1 * 15

/-- The classification rule of the spec, written from the words of the spec
(priority order, first match wins) to be compared with `getBiome` from the
source. -/
def specBiomeRule (temp humidity elevation : ℝ) : Biome :=
  if elevation > 3 / 5 then Biome.mountain
  else if temp < -(3 / 10) then Biome.mountain
  else if humidity < -(3 / 10) ∧ temp > 1 / 5 then Biome.desert
  else if humidity > 2 / 5 ∧ temp > -(1 / 10) then Biome.forest
  else if elevation < 1 / 10 ∧ |temp| < 3 / 10 then Biome.city
  else Biome.plains

/-!  ### CatmullRomSpline (src/unnamed/part_001, lines 508-588)

The spline object stores its control-point list; `getPoint`/`getTangent`
map `t` in `[0,1]` to a segment index and a local parameter.  Out-of-range
list indices (which the claims never exercise) are modelled with
`List.getD _ Vec3.zero`. -/

/-- Segment index used by `getPoint`/`getTangent`:
`Math.min(Math.floor(t * segmentCount), segmentCount - 1)` with
`segmentCount = points.length - 1`.  For `t` in `[0,1]` the value is
nonnegative, so the `Int.toNat` is exact. -/
def splineSegment (len : ℕ) (t : ℝ) : ℕ :=
  (min ⌊t * ((len : ℝ) - 1)⌋ ((len : ℤ) - 2)).toNat

/-- Local parameter used by `getPoint`/`getTangent`:
`t * segmentCount - segment`. -/
def splineLocalT (len : ℕ) (t : ℝ) : ℝ :=
  t * ((len : ℝ) - 1) - (splineSegment len t : ℝ)

/-- Model of `CatmullRomSpline.getSegmentPoint(segment, t)`: the uniform
Catmull-Rom cubic, with virtual end control points clamped to the nearest
real point (`Math.max(0, segment-1)` is the truncated subtraction on `ℕ`). -/
def getSegmentPoint (pts : List Vec3) (seg : ℕ) (t : ℝ) : Vec3 :=
  let p0 := pts.getD (seg - 1) Vec3.zero
  let p1 := pts.getD seg Vec3.zero
  let p2 := pts.getD (seg + 1) Vec3.zero
  let p3 := pts.getD (min (pts.length - 1) (seg + 2)) Vec3.zero
  ⟨(1 / 2) * ((2 * p1.x) + (-p0.x + p2.x) * t +
      (2 * p0.x - 5 * p1.x + 4 * p2.x - p3.x) * t ^ 2 +
      (-p0.x + 3 * p1.x - 3 * p2.x + p3.x) * t ^ 3),
   (1 / 2) * ((2 * p1.y) + (-p0.y + p2.y) * t +
      (2 * p0.y - 5 * p1.y + 4 * p2.y - p3.y) * t ^ 2 +
      (-p0.y + 3 * p1.y - 3 * p2.y + p3.y) * t ^ 3),
   (1 / 2) * ((2 * p1.z) + (-p0.z + p2.z) * t +
      (2 * p0.z - 5 * p1.z + 4 * p2.z - p3.z) * t ^ 2 +
      (-p0.z + 3 * p1.z - 3 * p2.z + p3.z) * t ^ 3)⟩

/-- Model of `CatmullRomSpline.getPoint(t)`: with fewer than two control
points return `points[0] || Vec3.zero()`. -/
def getPoint (pts : List Vec3) (t : ℝ) : Vec3 :=
  if pts.length < 2 then pts.getD 0 Vec3.zero
  else getSegmentPoint pts (splineSegment pts.length t) (splineLocalT pts.length t)

/-- The unnormalized derivative of the Catmull-Rom cubic computed by
`getSegmentTangent` before its final `.normalize()`. -/
def getSegmentTangentRaw (pts : List Vec3) (seg : ℕ) (t : ℝ) : Vec3 :=
  let p0 := pts.getD (seg - 1) Vec3.zero
  let p1 := pts.getD seg Vec3.zero
  let p2 := pts.getD (seg + 1) Vec3.zero
  let p3 := pts.getD (min (pts.length - 1) (seg + 2)) Vec3.zero
  ⟨(1 / 2) * ((-p0.x + p2.x) + 2 * (2 * p0.x - 5 * p1.x + 4 * p2.x - p3.x) * t +
      3 * (-p0.x + 3 * p1.x - 3 * p2.x + p3.x) * t ^ 2),
   (1 / 2) * ((-p0.y + p2.y) + 2 * (2 * p0.y - 5 * p1.y + 4 * p2.y - p3.y) * t +
      3 * (-p0.y + 3 * p1.y - 3 * p2.y + p3.y) * t ^ 2),
   (1 / 2) * ((-p0.z + p2.z) + 2 * (2 * p0.z - 5 * p1.z + 4 * p2.z - p3.z) * t +
      3 * (-p0.z + 3 * p1.z - 3 * p2.z + p3.z) * t ^ 2)⟩

/-- Model of `CatmullRomSpline.getSegmentTangent`: the derivative,
normalized. -/
def getSegmentTangent (pts : List Vec3) (seg : ℕ) (t : ℝ) : Vec3 :=
  (getSegmentTangentRaw pts seg t).normalize

/-- Model of `CatmullRomSpline.getTangent(t)`: with fewer than two control
points return `Vec3.forward()`. -/
def getTangent (pts : List Vec3) (t : ℝ) : Vec3 :=
  if pts.length < 2 then Vec3.forward
  else getSegmentTangent pts (splineSegment pts.length t) (splineLocalT pts.length t)

/-!  ### RoadSystem (src/unnamed/part_001, lines 6-505)

The road state keeps the fields of the `RoadSystem` object that the claims
touch: the waypoint path, the spline (a `CatmullRomSpline` over the path,
stored as its point list, `none` before `updateSpline` first runs), the
generation cursor and the tuning constants.  The renderer handle, the road
texture and the `segments` mesh list (vertex/index buffers of the banked
road strip, GPU handles) are collaborator-facing state untouched by claims
C7 and C8 and are not modelled; the trailing call of `extendRoad` to
`generateSegments()` writes only that omitted mesh state.  The terrain
collaborator (`this.terrain.getHeightAt`) is passed as the function
`heightFn`. -/

/-- Result record of `RoadSystem.getRoadInfo`. -/
structure RoadInfo where
  position : Vec3
  direction : Vec3
  distance : ℝ
  t : ℝ

/-- Mutable fields of the `RoadSystem` object used by the path,
spline and road-query logic. -/
structure RoadState where
  roadWidth : ℝ
  segmentLength : ℝ
  generationDistance : ℝ
  path : List Vec3
  spline : Option (List Vec3)
  lastGeneratedPosition : Vec3
  currentDirection : Vec3
  roadSeed : ℝ
  curviness : ℝ
  terrainFollowing : ℝ
  bankingAmount : ℝ
  shoulderWidth : ℝ

/-- The `RoadSystem` constructor state just after `this.path.push(start)` in
`generateInitialRoad` and before any `extendRoad`: the path holds only the
origin, the heading is +Z, and the tuning constants are the constructor
defaults. -/
def roadInit : RoadState :=
  { roadWidth := 8
    segmentLength := 50
    generationDistance := 1000
    path := [Vec3.zero]
    spline := none
    lastGeneratedPosition := Vec3.zero
    currentDirection := Vec3.forward
    roadSeed := 54321
    curviness := 3 / 10
    terrainFollowing := 4 / 5
    bankingAmount := 1 / 5
    shoulderWidth := 1 }

/-- Model of `RoadSystem.rotateVector(vector, angle)`: rotation about the
world up axis, leaving `y` unchanged. -/
def rotateVector (v : Vec3) (angle : ℝ) : Vec3 :=
  ⟨v.x * Real.cos angle - v.z * Real.sin angle,
   v.y,
   v.x * Real.sin angle + v.z * Real.cos angle⟩

/-- One iteration of the `extendRoad` while-loop: perturb the heading by the
noise-driven turn angle, step forward by `segmentLength`, blend the new
height of the new waypoint toward `terrain.getHeightAt + 1`, and append
it.  The
accumulator is `(path, currentPos, currentDir)`. -/
def extendStep (perm : List ℕ) (heightFn : ℝ → ℝ → ℝ)
    (curviness terrainFollowing segmentLength : ℝ)
    (acc : List Vec3 × Vec3 × Vec3) : List Vec3 × Vec3 × Vec3 :=
  let path := acc.1
  let currentPos := acc.2.1
  let currentDir := acc.2.2
  let segmentProgress := (path.length : ℝ) * (1 / 100)
  let noiseValue := octaveNoise2D perm segmentProgress (segmentProgress * (7 / 10)) 3 (3 / 5) (1 / 2)
  let turnAngle := noiseValue * curviness * (1 / 2)
  let dir := rotateVector currentDir turnAngle
  let stepped := currentPos.add (dir.multiply segmentLength)
  let terrainHeight := heightFn stepped.x stepped.z
  let nextPos : Vec3 := { stepped with y := mlerp stepped.y (terrainHeight + 1) terrainFollowing }
  (path ++ [nextPos], nextPos, dir)

/-- Iterate `extendStep` a fixed number of times. -/
def extendIter (perm : List ℕ) (heightFn : ℝ → ℝ → ℝ)
    (curviness terrainFollowing segmentLength : ℝ) :
    ℕ → (List Vec3 × Vec3 × Vec3) → List Vec3 × Vec3 × Vec3
  | 0, acc => acc
  | n + 1, acc =>
    extendIter perm heightFn curviness terrainFollowing segmentLength n
      (extendStep perm heightFn curviness terrainFollowing segmentLength acc)

/-- Model of `RoadSystem.extendRoad(distance)`.  The while-loop adds exactly
`segmentLength` to `generatedDistance` per iteration, so (for positive
`segmentLength`) it runs `ceil(distance / segmentLength)` times.  Afterwards
the spline is rebuilt over the whole path (`updateSpline`); the segment
re-meshing (`generateSegments`) touches only the unmodelled mesh state. -/
def extendRoad (heightFn : ℝ → ℝ → ℝ) (st : RoadState) (distance : ℝ) : RoadState :=
  let perm := generatePermutation st.roadSeed
  let n := ⌈distance / st.segmentLength⌉₊
  let res := extendIter perm heightFn st.curviness st.terrainFollowing st.segmentLength n
    (st.path, st.lastGeneratedPosition, st.currentDirection)
  { st with
    path := res.1
    lastGeneratedPosition := res.2.1
    currentDirection := res.2.2
    spline := some res.1 }

/-- One comparison of the nearest-point search: keep the incumbent unless
the candidate distance is strictly smaller.  `none` models the initial
`closestDistance = Infinity`, which every real distance beats. -/
def better (acc : ℝ × Option ℝ) (c : ℝ × ℝ) : ℝ × Option ℝ :=
  match acc.2 with
  | none => (c.1, some c.2)
  | some bd => if c.2 < bd then (c.1, some c.2) else acc

/-- The 101 coarse `(t, distance)` samples of the `getRoadInfo` search
(`samples = 100`, `t = i / samples`). -/
def roadCoarse (pts : List Vec3) (worldPos : Vec3) : List (ℝ × ℝ) :=
  (List.range 101).map
    (fun i => ((i : ℝ) / 100, worldPos.dist (getPoint pts ((i : ℝ) / 100))))

/-- The 21 refinement `(t, distance)` samples of the `getRoadInfo` search
around `t1` (`i` from -10 to 10, step `refinement = 0.01`, clamped to
`[0,1]`). -/
def roadRefine (pts : List Vec3) (worldPos : Vec3) (t1 : ℝ) : List (ℝ × ℝ) :=
  (List.range 21).map
    (fun k =>
      (max 0 (min 1 (t1 + (((k : ℤ) - 10 : ℤ) : ℝ) * (1 / 100))),
       worldPos.dist (getPoint pts (max 0 (min 1 (t1 + (((k : ℤ) - 10 : ℤ) : ℝ) * (1 / 100)))))))

/-- The best `(closestT, closestDistance)` pair of the `getRoadInfo`
search: the refinement scan continues from the result of the coarse scan. -/
def roadBest (pts : List Vec3) (worldPos : Vec3) : ℝ × Option ℝ :=
  (roadRefine pts worldPos
      ((roadCoarse pts worldPos).foldl better ((0 : ℝ), (none : Option ℝ))).1).foldl
    better ((roadCoarse pts worldPos).foldl better ((0 : ℝ), (none : Option ℝ)))

/-- Model of `RoadSystem.getRoadInfo(worldPos)`: `null` without a spline;
otherwise a coarse scan of 101 uniform samples followed by a refinement scan
of 21 samples at step `0.01` around the best `t`, clamped to `[0,1]`,
returning the spline point, tangent, distance and parameter of the best
sample. -/
def getRoadInfo (st : RoadState) (worldPos : Vec3) : Option RoadInfo :=
  match st.spline with
  | none => none
  | some pts =>
    (roadBest pts worldPos).2.map
      (fun d => ⟨getPoint pts (roadBest pts worldPos).1,
                 getTangent pts (roadBest pts worldPos).1, d,
                 (roadBest pts worldPos).1⟩)

/-- Model of `RoadSystem.isOnRoad(worldPos, tolerance)`:
`roadInfo && roadInfo.distance <= tolerance`. -/
def isOnRoad (st : RoadState) (worldPos : Vec3) (tolerance : ℝ) : Bool :=
  match getRoadInfo st worldPos with
  | none => false
  | some info => if info.distance ≤ tolerance then true else false

/-- Model of `RoadSystem.isOnRoad` with its default tolerance argument,
which the source sets to `this.roadWidth`. -/
def isOnRoadDefault (st : RoadState) (worldPos : Vec3) : Bool :=
  isOnRoad st worldPos st.roadWidth

/-- Model of `RoadSystem.getRoadHeight(x, z)`: the spline height when the
nearest-point distance is at most `this.roadWidth`, otherwise `null`. -/
def getRoadHeight (st : RoadState) (x z : ℝ) : Option ℝ :=
  match getRoadInfo st ⟨x, 0, z⟩ with
  | none => none
  | some info => if info.distance ≤ st.roadWidth then some info.position.y else none

/-!  ### TerrainSystem (src/unnamed/part_001, lines 599-1101)

Terrain parameters are the constructor constants: `chunkSize = 128` vertices
per side, `chunkWorldSize = 500` world units, `renderDistance = 2000`,
`lodLevels = 4`, so the streaming radius in chunk units,
`maxDistance = renderDistance / chunkWorldSize`, is exactly `4`.  Chunk keys
are produced by `getChunkKey(x, z) = "x,z"`, a string injective in the
integer pair `(x, z)`; we use the pair itself as the key.  The
`stats` counters and debug helpers do not influence any claimed behavior and
are not modelled. -/

/-- Model of the terrain constructor constant `chunkSize`. -/
def chunkSizeN : ℕ := 128

/-- Model of the terrain constructor constant `chunkWorldSize`. -/
def chunkWorldSizeR : ℝ := 500

/-- Model of the terrain constructor constant `renderDistance`. -/
def renderDistanceR : ℝ := 2000

/-- Model of the terrain constructor constant `lodLevels`. -/
def lodLevelsN : ℕ := 4

/-- The streaming radius in chunk units,
`renderDistance / chunkWorldSize` (equal to 4). -/
def maxDistanceR : ℝ := renderDistanceR / chunkWorldSizeR

/-- Axis-aligned bounding box record of a chunk (`bounds` in the source,
with fields `center`, `extents`, `min`, `max`). -/
structure Bounds where
  center : Vec3
  extents : Vec3
  bmin : Vec3
  bmax : Vec3

/-- A chunk record, with exactly the mutable fields of the pooled chunk
object literal in `getChunkFromPool`.  GPU buffer handles are not inspected; the
`buffers` field only records whether buffers are allocated.  The identity
matrix written by `Mat4.create()` into `transform` is recorded as a
16-entry list. -/
structure Chunk where
  x : ℤ
  z : ℤ
  lod : ℕ
  worldX : ℝ
  worldZ : ℝ
  vertices : Option (List ℝ)
  indices : Option (List ℕ)
  buffers : Option Unit
  transform : Option (List ℝ)
  bounds : Option Bounds
  visible : Bool
  vertexCount : ℕ
  indexCount : ℕ
  triangleCount : ℕ

/-- The fresh chunk literal allocated by `getChunkFromPool` when the pool is
empty. -/
def freshChunk : Chunk :=
  { x := 0, z := 0, lod := 0
    worldX := 0, worldZ := 0
    vertices := none, indices := none
    buffers := none, transform := none
    bounds := none, visible := false
    vertexCount := 0, indexCount := 0, triangleCount := 0 }

/-- Model of `TerrainSystem.getChunkFromPool`: pop the most recently pushed
record, or allocate a fresh literal.  The pool list is kept most recent
first, so `push`/`pop` act on the head. -/
def getChunkFromPool (pool : List Chunk) : Chunk × List Chunk :=
  match pool with
  | [] => (freshChunk, [])
  | c :: rest => (c, rest)

/-- Model of `TerrainSystem.returnChunkToPool`: null the geometry arrays and
buffer handles, clear the visibility flag, and push the record.  No other
field is touched. -/
def returnChunkToPool (c : Chunk) (pool : List Chunk) : List Chunk :=
  { c with vertices := none, indices := none, buffers := none, visible := false } :: pool

/-- The notion the spec uses of a pool record with no stale geometry state: the
fields that `returnChunkToPool` actually resets. -/
def chunkGeomReset (c : Chunk) : Prop :=
  c.vertices = none ∧ c.indices = none ∧ c.buffers = none ∧ c.visible = false

/-- A frustum plane `[nx, ny, nz, d]`. -/
structure FrustumPlane where
  nx : ℝ
  ny : ℝ
  nz : ℝ
  d : ℝ

/-- The terrain `settings` record (generation settings of the constructor). -/
structure TerrainSettings where
  wireframe : Bool
  showChunkBounds : Bool
  autoLOD : Bool
  enableFrustumCulling : Bool
  enableDistanceCulling : Bool

/-- The constructor defaults of the terrain settings. -/
def defaultSettings : TerrainSettings :=
  { wireframe := false, showChunkBounds := false, autoLOD := true
    enableFrustumCulling := true, enableDistanceCulling := true }

/-- Mutable state of the `TerrainSystem` object: the chunk registry
(`chunks` map, modelled as a function to `Option Chunk`), the pool, the
loaded and visible key sets (JavaScript `Set`s, insertion ordered, modelled
as duplicate-free lists), the biome noise and the settings. -/
structure TerrainState where
  chunks : ℤ × ℤ → Option Chunk
  chunkPool : List Chunk
  loadedChunks : List (ℤ × ℤ)
  visibleChunks : List (ℤ × ℤ)
  biomeNoise : BiomeNoise
  settings : TerrainSettings

/-- The `TerrainSystem` state with empty chunk collections and the
biome noise of the constructor (`new BiomeNoise(12345)`) and default settings, as
it stands before `generateInitialChunks` runs. -/
def emptyTerrain : TerrainState :=
  { chunks := fun _ => none
    chunkPool := []
    loadedChunks := []
    visibleChunks := []
    biomeNoise := mkBiomeNoise 12345
    settings := defaultSettings }

/-- Model of `TerrainSystem.getHeightAt(x, z)`: classify the biome, then
blend the height. -/
def TerrainState.getHeightAt (st : TerrainState) (x z : ℝ) : ℝ :=
  getBlendedHeight st.biomeNoise x z (getBiome st.biomeNoise x z)

/-- Model of `TerrainSystem.getBiomeAt(x, z)`. -/
def TerrainState.getBiomeAt (st : TerrainState) (x z : ℝ) : Biome :=
  getBiome st.biomeNoise x z

/-- One entry of the `getRequiredChunks` result:
`{ x, z, lod, distance }`. -/
structure ReqChunk where
  x : ℤ
  z : ℤ
  lod : ℕ
  distance : ℝ

/-- The LOD bucket that `getRequiredChunks` assigns to chunk key
`(kx, kz)` for a given anchor:
`min(floor(distance / (maxDistance / lodLevels)), lodLevels - 1)` where
`distance` is the Euclidean distance between the key and the chunk
coordinates. -/
def chunkLod (kx kz : ℤ) (camPos : Vec3) : ℕ :=
  let cx := ⌊camPos.x / chunkWorldSizeR⌋
  let cz := ⌊camPos.z / chunkWorldSizeR⌋
  let distance := Real.sqrt (((kx - cx : ℤ) : ℝ) ^ 2 + ((kz - cz : ℤ) : ℝ) ^ 2)
  min (⌊distance / (maxDistanceR / (lodLevelsN : ℝ))⌋.toNat) (lodLevelsN - 1)

/-- Model of `TerrainSystem.getRequiredChunks(cameraPosition)`: scan the
9-by-9 square of chunk coordinates around the chunk of the camera (the loop
bounds `camChunk - maxDistance .. camChunk + maxDistance` with
`maxDistance = 4`), keep keys with Euclidean distance at most
`maxDistance`, and attach the distance-bucket LOD (0 when `autoLOD` is
off). -/
def getRequiredChunks (camPos : Vec3) (autoLOD : Bool) : List ReqChunk :=
  let cx := ⌊camPos.x / chunkWorldSizeR⌋
  let cz := ⌊camPos.z / chunkWorldSizeR⌋
  ((List.range 9).map (fun i => cx - 4 + (i : ℤ))).flatMap (fun kx =>
    ((List.range 9).map (fun j => cz - 4 + (j : ℤ))).flatMap (fun kz =>
      let distance := Real.sqrt (((kx - cx : ℤ) : ℝ) ^ 2 + ((kz - cz : ℤ) : ℝ) ^ 2)
      if distance ≤ maxDistanceR then
        [{ x := kx, z := kz
           lod := if autoLOD then chunkLod kx kz camPos else 0
           distance := distance }]
      else []))

/-- Model of `TerrainSystem.generateChunkGeometry(chunk)`: sample a
`resolution = max(8, chunkSize >> lod)` square heightfield through
`BiomeNoise`, emit interleaved position/normal/uv/biome vertex data, two
triangles per grid quad, and the min/max-height bounding box.  The height
grid, normals and the vertex interleave are written directly as the flat
list the source assembles. -/
def generateChunkGeometry (bn : BiomeNoise) (c : Chunk) : Chunk :=
  let res : ℕ := max 8 (chunkSizeN >>> c.lod)
  let step : ℝ := chunkWorldSizeR / ((res : ℝ) - 1)
  let H : ℕ → ℕ → ℝ := fun gz gx =>
    getBlendedHeight bn (c.worldX + gx * step) (c.worldZ + gz * step)
      (getBiome bn (c.worldX + gx * step) (c.worldZ + gz * step))
  let clampedH : ℕ → ℕ → ℝ := fun gz gx => H (min gz (res - 1)) (min gx (res - 1))
  let normalAt : ℕ → ℕ → Vec3 := fun gz gx =>
    Vec3.normalize
      ⟨(clampedH gz (gx - 1) - clampedH gz (gx + 1)) / (2 * step), 2,
       (clampedH (gz - 1) gx - clampedH (gz + 1) gx) / (2 * step)⟩
  let biomeId : ℕ → ℕ → ℕ := fun gz gx =>
    match getBiome bn (c.worldX + gx * step) (c.worldZ + gz * step) with
    | Biome.plains => 0
    | Biome.forest => 1
    | Biome.desert => 2
    | Biome.mountain => 3
    | Biome.city => 4
  let verts : List ℝ := (List.range res).flatMap (fun gz =>
    (List.range res).flatMap (fun gx =>
      [c.worldX + gx * step, H gz gx, c.worldZ + gz * step,
       (normalAt gz gx).x, (normalAt gz gx).y, (normalAt gz gx).z,
       (gx : ℝ) / ((res : ℝ) - 1), (gz : ℝ) / ((res : ℝ) - 1),
       (biomeId gz gx : ℝ)]))
  let idx : List ℕ := (List.range (res - 1)).flatMap (fun gz =>
    (List.range (res - 1)).flatMap (fun gx =>
      let topLeft := gz * res + gx
      let bottomLeft := (gz + 1) * res + gx
      [topLeft, bottomLeft, topLeft + 1,
       topLeft + 1, bottomLeft, bottomLeft + 1]))
  let heightsList : List ℝ := (List.range res).flatMap (fun gz =>
    (List.range res).map (fun gx => H gz gx))
  let minY : ℝ := heightsList.foldl min (H 0 0)
  let maxY : ℝ := heightsList.foldl max (H 0 0)
  { c with
    vertices := some verts
    indices := some idx
    vertexCount := res * res
    indexCount := idx.length
    triangleCount := idx.length / 3
    bounds := some
      { center := ⟨c.worldX + chunkWorldSizeR / 2, (minY + maxY) / 2,
                   c.worldZ + chunkWorldSizeR / 2⟩
        extents := ⟨chunkWorldSizeR / 2, (maxY - minY) / 2, chunkWorldSizeR / 2⟩
        bmin := ⟨c.worldX, minY, c.worldZ⟩
        bmax := ⟨c.worldX + chunkWorldSizeR, maxY, c.worldZ + chunkWorldSizeR⟩ }
    transform := some [1, 0, 0, 0, 0, 1, 0, 0, 0, 0, 1, 0, 0, 0, 0, 1] }

/-- Model of `TerrainSystem.createChunkBuffers`: allocate GPU buffers for
the chunk. -/
def createChunkBuffers (c : Chunk) : Chunk :=
  { c with buffers := some () }

/-- Model of `TerrainSystem.generateChunk(chunkX, chunkZ, lod)`: return
early if the key is already loaded; otherwise take a record from the pool,
assign coordinates and LOD, build geometry and buffers, and register the
chunk (the `chunks` map and the `loadedChunks` set gain the key together,
preserving insertion order). -/
def TerrainState.generateChunk (st : TerrainState) (chunkX chunkZ : ℤ) (lod : ℕ) :
    TerrainState :=
  if (chunkX, chunkZ) ∈ st.loadedChunks then st
  else
    let pr := getChunkFromPool st.chunkPool
    let c1 : Chunk :=
      { pr.1 with
        x := chunkX, z := chunkZ, lod := lod
        worldX := (chunkX : ℝ) * chunkWorldSizeR
        worldZ := (chunkZ : ℝ) * chunkWorldSizeR }
    let c2 := createChunkBuffers (generateChunkGeometry st.biomeNoise c1)
    { st with
      chunkPool := pr.2
      chunks := fun k => if k = (chunkX, chunkZ) then some c2 else st.chunks k
      loadedChunks := st.loadedChunks ++ [(chunkX, chunkZ)] }

/-- Model of `TerrainSystem.unloadChunk(key)`: no-op when the registry has
no chunk for the key; otherwise delete the GPU buffers, return the record to
the pool, and drop the key from all collections. -/
def TerrainState.unloadChunk (st : TerrainState) (k : ℤ × ℤ) : TerrainState :=
  match st.chunks k with
  | none => st
  | some c =>
    { st with
      chunkPool := returnChunkToPool c st.chunkPool
      chunks := fun k2 => if k2 = k then none else st.chunks k2
      loadedChunks := st.loadedChunks.erase k
      visibleChunks := st.visibleChunks.erase k }

/-- Model of `TerrainSystem.unloadDistantChunks(cameraPosition,
requiredChunks)`: unload every loaded key that is not among the required
keys. -/
def TerrainState.unloadDistantChunks (st : TerrainState) (required : List ReqChunk) :
    TerrainState :=
  let requiredKeys := required.map (fun r => (r.x, r.z))
  (st.loadedChunks.filter (fun k => ¬ (k ∈ requiredKeys))).foldl
    TerrainState.unloadChunk st

/-- Model of `TerrainSystem.isChunkInFrustum(bounds, planes)`: the
positive-vertex AABB test; the box is outside as soon as its extremal vertex
along some plane normal lies behind that plane. -/
def isChunkInFrustum (b : Bounds) (planes : List FrustumPlane) : Bool :=
  planes.all (fun pl =>
    let pv : Vec3 :=
      ⟨if 0 ≤ pl.nx then b.center.x + b.extents.x else b.center.x - b.extents.x,
       if 0 ≤ pl.ny then b.center.y + b.extents.y else b.center.y - b.extents.y,
       if 0 ≤ pl.nz then b.center.z + b.extents.z else b.center.z - b.extents.z⟩
    if pl.nx * pv.x + pl.ny * pv.y + pl.nz * pv.z + pl.d < 0 then false else true)

/-- The visibility decision of `TerrainSystem.updateVisibility` for one
chunk: distance culling against `renderDistance` (the chunk center takes its
`y` from the bounds), then the frustum test when planes were supplied. -/
def chunkVisible (st : TerrainState) (camPos : Vec3)
    (planes : Option (List FrustumPlane)) (c : Chunk) : Bool :=
  let center : Vec3 :=
    ⟨c.worldX + chunkWorldSizeR / 2,
     ((c.bounds.map (fun b => b.center.y)).getD 0),
     c.worldZ + chunkWorldSizeR / 2⟩
  let afterDistance : Bool :=
    if st.settings.enableDistanceCulling then
      if renderDistanceR < camPos.dist center then false else true
    else true
  match planes with
  | none => afterDistance
  | some ps =>
    if afterDistance ∧ st.settings.enableFrustumCulling then
      match c.bounds with
      | some b => isChunkInFrustum b ps
      | none => afterDistance
    else afterDistance

/-- Model of `TerrainSystem.updateVisibility`: store the per-chunk
visibility flag and rebuild the visible key set.  The registry map is
iterated in its insertion order, which coincides with `loadedChunks`. -/
def TerrainState.updateVisibility (st : TerrainState) (camPos : Vec3)
    (planes : Option (List FrustumPlane)) : TerrainState :=
  { st with
    chunks := fun k =>
      (st.chunks k).map (fun c => { c with visible := chunkVisible st camPos planes c })
    visibleChunks := st.loadedChunks.filter (fun k =>
      match st.chunks k with
      | some c => chunkVisible st camPos planes c
      | none => false) }

/-- Model of `TerrainSystem.update(cameraPosition, frustumPlanes)`: compute
the required set, unload what is no longer required, generate every required
key that is not loaded (the generation loop skips keys already in
`loadedChunks`), then refresh visibility. -/
def TerrainState.update (st : TerrainState) (camPos : Vec3)
    (planes : Option (List FrustumPlane)) : TerrainState :=
  let required := getRequiredChunks camPos st.settings.autoLOD
  let st1 := st.unloadDistantChunks required
  let st2 := required.foldl
    (fun s r => if (r.x, r.z) ∈ s.loadedChunks then s else s.generateChunk r.x r.z r.lod)
    st1
  st2.updateVisibility camPos planes

/-!  ### State-passing query interface for the determinism claim

`TerrainSystem.getHeightAt` and `getBiomeAt` read the `BiomeNoise` channels
(whose permutation tables are built once at construction) and assign no
field of `this` or of the noise objects; their state-passing translations
therefore return the state they received, and claim C1 checks exactly
that. -/

/-- A height or biome query against the terrain system. -/
inductive TQuery where
  | height : ℝ → ℝ → TQuery
  | biome : ℝ → ℝ → TQuery

/-- The answer to a terrain query. -/
inductive TAnswer where
  | height : ℝ → TAnswer
  | biome : Biome → TAnswer

/-- The value a query returns, as a pure function of the biome noise. -/
def pureAnswer (bn : BiomeNoise) : TQuery → TAnswer
  | TQuery.height x z => TAnswer.height (getBlendedHeight bn x z (getBiome bn x z))
  | TQuery.biome x z => TAnswer.biome (getBiome bn x z)

/-- State-passing translation of one `getHeightAt`/`getBiomeAt` method call:
the body reads `this.biomeNoise` and performs no assignment, so the
post-state is the pre-state. -/
def stepQuery (st : TerrainState) (q : TQuery) : TAnswer × TerrainState :=
  match q with
  | TQuery.height x z => (TAnswer.height (st.getHeightAt x z), st)
  | TQuery.biome x z => (TAnswer.biome (st.getBiomeAt x z), st)

/-- Run a sequence of queries, threading the terrain state through every
call. -/
def runQueries (st : TerrainState) : List TQuery → List TAnswer × TerrainState
  | [] => ([], st)
  | q :: qs =>
    let r := stepQuery st q
    let rest := runQueries r.2 qs
    (r.1 :: rest.1, rest.2)

/-!  ### Auxiliary notions used to state the road and pool properties -/

/-- The new waypoint appended by one `extendRoad` iteration, as a function
of the previous position and the already-rotated direction: step forward by
`segmentLength`, then blend the height toward
`terrain.getHeightAt(x, z) + 1` with the terrain-following factor. -/
def stepPoint (heightFn : ℝ → ℝ → ℝ) (terrainFollowing segmentLength : ℝ)
    (pos dir : Vec3) : Vec3 :=
  ⟨pos.x + dir.x * segmentLength,
   mlerp (pos.y + dir.y * segmentLength)
     (heightFn (pos.x + dir.x * segmentLength) (pos.z + dir.z * segmentLength) + 1)
     terrainFollowing,
   pos.z + dir.z * segmentLength⟩

/-- Consecutive waypoints of the list are exactly `s` apart in the XZ-plane
projection (stated on the squares, which is equivalent for `s ≥ 0`). -/
def pathSpaced (s : ℝ) (l : List Vec3) : Prop :=
  ∀ i, i + 1 < l.length →
    ((l.getD (i + 1) Vec3.zero).x - (l.getD i Vec3.zero).x) ^ 2 +
      ((l.getD (i + 1) Vec3.zero).z - (l.getD i Vec3.zero).z) ^ 2 = s ^ 2

/-- Loop invariant of the `extendRoad` iteration: the accumulated path has
the stated length, starts at `p0`, ends at the current position, the
current direction is a unit vector in the XZ plane, and consecutive
waypoints are `s` apart in XZ projection. -/
def extendInv (s : ℝ) (p0 : Vec3) (len : ℕ)
    (acc : List Vec3 × Vec3 × Vec3) : Prop :=
  acc.1.length = len ∧
  acc.1.getD 0 Vec3.zero = p0 ∧
  acc.2.1 = acc.1.getD (len - 1) Vec3.zero ∧
  acc.2.2.x ^ 2 + acc.2.2.z ^ 2 = 1 ∧
  pathSpaced s acc.1

/-- A road state whose path and spline are a straight two-waypoint
centerline along the Z axis (as produced by the spline rebuild after an
extension with no turning), used to exercise the on-road tolerance. -/
def roadStraight : RoadState :=
  { roadInit with
    path := [Vec3.zero, ⟨0, 0, 50⟩]
    spline := some [Vec3.zero, ⟨0, 0, 50⟩] }

/-- A bounding box with nontrivial values, used as the bounds left by the
previous tenant in the pool-staleness scenario. -/
def demoBounds : Bounds :=
  { center := ⟨1, 2, 3⟩, extents := ⟨4, 5, 6⟩, bmin := ⟨0, 0, 0⟩, bmax := ⟨7, 8, 9⟩ }

/-- A chunk record that has lived through a generation: it carries bounds
and a triangle count. -/
def demoChunk : Chunk :=
  { freshChunk with bounds := some demoBounds, triangleCount := 7 }

end

/-!  ## Theorems -/

/-- The quintic fade stays nonnegative on the unit interval. -/
theorem fade_nonneg {x : ℝ} (h0 : 0 ≤ x) (h1 : x ≤ 1) : 0 ≤ fade x := by
  have hinner : 0 ≤ x * (x * 6 - 15) + 10 := by nlinarith [sq_nonneg (2 * x - 5 / 2)]
  have hcube : 0 ≤ x * x * x := mul_nonneg (mul_nonneg h0 h0) h0
  unfold fade
  exact mul_nonneg hcube hinner

/-- The quintic fade stays at most one on the unit interval. -/
theorem fade_le_one {x : ℝ} (h0 : 0 ≤ x) (h1 : x ≤ 1) : fade x ≤ 1 := by
  have key : 1 - fade x = (1 - x) ^ 3 * (6 * x ^ 2 + 3 * x + 1) := by unfold fade; ring
  have h2 : 0 ≤ (1 - x) ^ 3 := pow_nonneg (by linarith) 3
  have h3 : 0 ≤ 6 * x ^ 2 + 3 * x + 1 := by nlinarith [sq_nonneg x]
  nlinarith [mul_nonneg h2 h3]

/-- Below the midpoint the fade is below the diagonal. -/
theorem fade_le_self {x : ℝ} (h0 : 0 ≤ x) (hh : x ≤ 1 / 2) : fade x ≤ x := by
  have key : x - fade x = x * (1 - x) * ((2 * x - 1) * (3 * x ^ 2 - 3 * x - 1)) := by
    unfold fade; ring
  have hQ : 3 * x ^ 2 - 3 * x - 1 ≤ 0 := by
    nlinarith [mul_nonneg h0 (by linarith : (0 : ℝ) ≤ 1 - x)]
  have hfac : 0 ≤ (2 * x - 1) * (3 * x ^ 2 - 3 * x - 1) := by
    nlinarith [mul_nonneg (by linarith : (0 : ℝ) ≤ 1 - 2 * x)
      (by linarith : (0 : ℝ) ≤ -(3 * x ^ 2 - 3 * x - 1))]
  nlinarith [mul_nonneg (mul_nonneg h0 (by linarith : (0 : ℝ) ≤ 1 - x)) hfac]

/-- Above the midpoint the fade is above the diagonal. -/
theorem self_le_fade {x : ℝ} (hh : 1 / 2 ≤ x) (h1 : x ≤ 1) : x ≤ fade x := by
  have h0 : (0 : ℝ) ≤ x := by linarith
  have key : x - fade x = x * (1 - x) * ((2 * x - 1) * (3 * x ^ 2 - 3 * x - 1)) := by
    unfold fade; ring
  have hQ : 3 * x ^ 2 - 3 * x - 1 ≤ 0 := by
    nlinarith [mul_nonneg h0 (by linarith : (0 : ℝ) ≤ 1 - x)]
  have hfac : (2 * x - 1) * (3 * x ^ 2 - 3 * x - 1) ≤ 0 := by
    nlinarith [mul_nonneg (by linarith : (0 : ℝ) ≤ 2 * x - 1)
      (by linarith : (0 : ℝ) ≤ -(3 * x ^ 2 - 3 * x - 1))]
  nlinarith [mul_nonneg (mul_nonneg h0 (by linarith : (0 : ℝ) ≤ 1 - x)) (neg_nonneg.mpr hfac)]

/-- The quantity `x + fade x * (1 - 2x)` that bounds one axis of the Perlin
interpolation never exceeds one half on the unit interval. -/
theorem phi_le_half {x : ℝ} (h0 : 0 ≤ x) (h1 : x ≤ 1) :
    x + fade x * (1 - 2 * x) ≤ 1 / 2 := by
  have key : 1 / 2 - (x + fade x * (1 - 2 * x)) = (1 - 2 * x) * (1 / 2 - fade x) := by ring
  rcases le_or_lt x (1 / 2) with h | h
  · have h2 : fade x ≤ x := fade_le_self h0 h
    nlinarith [mul_nonneg (by linarith : (0 : ℝ) ≤ 1 - 2 * x)
      (by linarith : (0 : ℝ) ≤ 1 / 2 - fade x)]
  · have h2 : x ≤ fade x := self_le_fade (le_of_lt h) h1
    nlinarith [mul_nonneg (by linarith : (0 : ℝ) ≤ 2 * x - 1)
      (by linarith : (0 : ℝ) ≤ fade x - 1 / 2)]

/-- The noise interpolation is monotone in both endpoints for weights in the
unit interval. -/
theorem nlerp_le_nlerp {a b A B t : ℝ} (hA : a ≤ A) (hB : b ≤ B)
    (h0 : 0 ≤ t) (h1 : t ≤ 1) : nlerp a b t ≤ nlerp A B t := by
  unfold nlerp
  nlinarith [mul_nonneg h0 (sub_nonneg.mpr hB),
    mul_nonneg (sub_nonneg.mpr hA) (by linarith : (0 : ℝ) ≤ 1 - t)]

/-- Any corner gradient is bounded by the taxicab norm of its offset. -/
theorem grad_abs_le (hsh : ℕ) (a b : ℝ) : |grad hsh a b| ≤ |a| + |b| := by
  simp only [grad]
  split_ifs <;>
    (rw [abs_le]; constructor <;>
      linarith [le_abs_self a, neg_abs_le a, le_abs_self b, neg_abs_le b])

/-- Core bound for the Perlin lattice interpolation: once each corner
gradient is bounded by the taxicab distance to its corner, the doubly
interpolated value lies in `[-1, 1]`. -/
theorem perlin_core {g00 g10 g01 g11 xf yf : ℝ}
    (hx0 : 0 ≤ xf) (hx1 : xf ≤ 1) (hy0 : 0 ≤ yf) (hy1 : yf ≤ 1)
    (h00 : |g00| ≤ xf + yf) (h10 : |g10| ≤ (1 - xf) + yf)
    (h01 : |g01| ≤ xf + (1 - yf)) (h11 : |g11| ≤ (1 - xf) + (1 - yf)) :
    |nlerp (nlerp g00 g10 (fade xf)) (nlerp g01 g11 (fade xf)) (fade yf)| ≤ 1 := by
  have hu0 := fade_nonneg hx0 hx1
  have hu1 := fade_le_one hx0 hx1
  have hv0 := fade_nonneg hy0 hy1
  have hv1 := fade_le_one hy0 hy1
  have hAx := phi_le_half hx0 hx1
  have hAy := phi_le_half hy0 hy1
  obtain ⟨h00l, h00r⟩ := abs_le.mp h00
  obtain ⟨h10l, h10r⟩ := abs_le.mp h10
  obtain ⟨h01l, h01r⟩ := abs_le.mp h01
  obtain ⟨h11l, h11r⟩ := abs_le.mp h11
  have hin1r : nlerp g00 g10 (fade xf) ≤ yf + (xf + fade xf * (1 - 2 * xf)) := by
    have h := nlerp_le_nlerp h00r h10r hu0 hu1
    have heq : nlerp (xf + yf) ((1 - xf) + yf) (fade xf) =
        yf + (xf + fade xf * (1 - 2 * xf)) := by unfold nlerp; ring
    linarith [heq ▸ h]
  have hin1l : -(yf + (xf + fade xf * (1 - 2 * xf))) ≤ nlerp g00 g10 (fade xf) := by
    have h := nlerp_le_nlerp h00l h10l hu0 hu1
    have heq : nlerp (-(xf + yf)) (-((1 - xf) + yf)) (fade xf) =
        -(yf + (xf + fade xf * (1 - 2 * xf))) := by unfold nlerp; ring
    linarith [heq ▸ h]
  have hin2r : nlerp g01 g11 (fade xf) ≤ (1 - yf) + (xf + fade xf * (1 - 2 * xf)) := by
    have h := nlerp_le_nlerp h01r h11r hu0 hu1
    have heq : nlerp (xf + (1 - yf)) ((1 - xf) + (1 - yf)) (fade xf) =
        (1 - yf) + (xf + fade xf * (1 - 2 * xf)) := by unfold nlerp; ring
    linarith [heq ▸ h]
  have hin2l : -((1 - yf) + (xf + fade xf * (1 - 2 * xf))) ≤ nlerp g01 g11 (fade xf) := by
    have h := nlerp_le_nlerp h01l h11l hu0 hu1
    have heq : nlerp (-(xf + (1 - yf))) (-((1 - xf) + (1 - yf))) (fade xf) =
        -((1 - yf) + (xf + fade xf * (1 - 2 * xf))) := by unfold nlerp; ring
    linarith [heq ▸ h]
  rw [abs_le]
  constructor
  · have h := nlerp_le_nlerp hin1l hin2l hv0 hv1
    have heq : nlerp (-(yf + (xf + fade xf * (1 - 2 * xf))))
        (-((1 - yf) + (xf + fade xf * (1 - 2 * xf)))) (fade yf) =
        -((xf + fade xf * (1 - 2 * xf)) + (yf + fade yf * (1 - 2 * yf))) := by
      unfold nlerp; ring
    have h2 := heq ▸ h
    linarith
  · have h := nlerp_le_nlerp hin1r hin2r hv0 hv1
    have heq : nlerp (yf + (xf + fade xf * (1 - 2 * xf)))
        ((1 - yf) + (xf + fade xf * (1 - 2 * xf))) (fade yf) =
        (xf + fade xf * (1 - 2 * xf)) + (yf + fade yf * (1 - 2 * yf)) := by
      unfold nlerp; ring
    have h2 := heq ▸ h
    linarith

/-- The base Perlin sample is bounded by one in absolute value, for every
permutation table. -/
theorem perlin2D_abs_le (perm : List ℕ) (x y : ℝ) : |perlin2D perm x y| ≤ 1 := by
  have hx0 : (0 : ℝ) ≤ x - ⌊x⌋ := sub_nonneg.mpr (Int.floor_le x)
  have hx1 : x - (⌊x⌋ : ℝ) ≤ 1 := by
    have := Int.lt_floor_add_one x; linarith
  have hy0 : (0 : ℝ) ≤ y - ⌊y⌋ := sub_nonneg.mpr (Int.floor_le y)
  have hy1 : y - (⌊y⌋ : ℝ) ≤ 1 := by
    have := Int.lt_floor_add_one y; linarith
  simp only [perlin2D]
  apply perlin_core hx0 hx1 hy0 hy1
  · calc |grad _ (x - ⌊x⌋) (y - ⌊y⌋)| ≤ |x - (⌊x⌋ : ℝ)| + |y - (⌊y⌋ : ℝ)| :=
        grad_abs_le _ _ _
      _ = (x - ⌊x⌋) + (y - ⌊y⌋) := by rw [abs_of_nonneg hx0, abs_of_nonneg hy0]
  · calc |grad _ (x - ⌊x⌋ - 1) (y - ⌊y⌋)| ≤ |x - (⌊x⌋ : ℝ) - 1| + |y - (⌊y⌋ : ℝ)| :=
        grad_abs_le _ _ _
      _ = (1 - (x - ⌊x⌋)) + (y - ⌊y⌋) := by
        rw [abs_of_nonpos (by linarith), abs_of_nonneg hy0]; ring
  · calc |grad _ (x - ⌊x⌋) (y - ⌊y⌋ - 1)| ≤ |x - (⌊x⌋ : ℝ)| + |y - (⌊y⌋ : ℝ) - 1| :=
        grad_abs_le _ _ _
      _ = (x - ⌊x⌋) + (1 - (y - ⌊y⌋)) := by
        rw [abs_of_nonneg hx0, abs_of_nonpos (by linarith)]; ring
  · calc |grad _ (x - ⌊x⌋ - 1) (y - ⌊y⌋ - 1)| ≤
        |x - (⌊x⌋ : ℝ) - 1| + |y - (⌊y⌋ : ℝ) - 1| := grad_abs_le _ _ _
      _ = (1 - (x - ⌊x⌋)) + (1 - (y - ⌊y⌋)) := by
        rw [abs_of_nonpos (by linarith), abs_of_nonpos (by linarith)]; ring

/-- The amplitude sum of the fractal loop is nonnegative. -/
theorem octaveAux_snd_nonneg (perm : List ℕ) (x y persistence : ℝ)
    (hp : 0 ≤ persistence) :
    ∀ n amplitude frequency, 0 ≤ amplitude →
      0 ≤ (octaveAux perm x y persistence n amplitude frequency).2 := by
  intro n
  induction n with
  | zero => intro amplitude frequency _; simp [octaveAux]
  | succ m ih =>
    intro amplitude frequency ha
    have := ih (amplitude * persistence) (frequency * 2) (mul_nonneg ha hp)
    simp only [octaveAux]
    linarith

/-- The accumulated fractal value is bounded by the amplitude sum. -/
theorem octaveAux_abs_fst_le (perm : List ℕ) (x y persistence : ℝ)
    (hp : 0 ≤ persistence) :
    ∀ n amplitude frequency, 0 ≤ amplitude →
      |(octaveAux perm x y persistence n amplitude frequency).1| ≤
        (octaveAux perm x y persistence n amplitude frequency).2 := by
  intro n
  induction n with
  | zero => intro amplitude frequency _; simp [octaveAux]
  | succ m ih =>
    intro amplitude frequency ha
    have hrest := ih (amplitude * persistence) (frequency * 2) (mul_nonneg ha hp)
    have hterm : |perlin2D perm (x * frequency) (y * frequency) * amplitude| ≤ amplitude := by
      rw [abs_mul, abs_of_nonneg ha]
      calc |perlin2D perm (x * frequency) (y * frequency)| * amplitude ≤ 1 * amplitude :=
          mul_le_mul_of_nonneg_right (perlin2D_abs_le perm _ _) ha
        _ = amplitude := one_mul amplitude
    simp only [octaveAux]
    calc |perlin2D perm (x * frequency) (y * frequency) * amplitude +
          (octaveAux perm x y persistence m (amplitude * persistence) (frequency * 2)).1| ≤
        |perlin2D perm (x * frequency) (y * frequency) * amplitude| +
          |(octaveAux perm x y persistence m (amplitude * persistence) (frequency * 2)).1| :=
        abs_add _ _
      _ ≤ amplitude +
          (octaveAux perm x y persistence m (amplitude * persistence) (frequency * 2)).2 := by
        linarith

/-- C6: the base gradient-noise sample `perlin2D` always lies in `[-1, 1]`,
and for at least one octave and positive persistence the fractal combinator
`octaveNoise2D` (amplitude-weighted sum of doubling-frequency samples
normalized by the amplitude sum) also lies in `[-1, 1]`. -/
theorem noise_primitive_range (g : NoiseGenerator) (x y : ℝ) (octaves : ℕ)
    (persistence scale : ℝ) (hoct : 1 ≤ octaves) (hpers : 0 < persistence) :
    (-1 ≤ perlin2D g.permutation x y ∧ perlin2D g.permutation x y ≤ 1) ∧
      (-1 ≤ octaveNoise2D g.permutation x y octaves persistence scale ∧
        octaveNoise2D g.permutation x y octaves persistence scale ≤ 1) := by
  constructor
  · exact abs_le.mp (perlin2D_abs_le g.permutation x y)
  · obtain ⟨k, rfl⟩ : ∃ k, octaves = k + 1 := by
      rcases Nat.exists_eq_add_of_le hoct with ⟨k, hk⟩
      exact ⟨k, by omega⟩
    have hp : (0 : ℝ) ≤ persistence := le_of_lt hpers
    have hm : (1 : ℝ) ≤ (octaveAux g.permutation x y persistence (k + 1) 1 scale).2 := by
      have hrest := octaveAux_snd_nonneg g.permutation x y persistence hp k
        (1 * persistence) (scale * 2) (by linarith)
      simp only [octaveAux]
      linarith
    have hmpos : (0 : ℝ) < (octaveAux g.permutation x y persistence (k + 1) 1 scale).2 := by
      linarith
    have habs := octaveAux_abs_fst_le g.permutation x y persistence hp (k + 1) 1 scale
      (by norm_num)
    obtain ⟨hl, hr⟩ := abs_le.mp habs
    unfold octaveNoise2D
    constructor
    · rw [le_div_iff₀ hmpos]; linarith
    · rw [div_le_one hmpos]; linarith

/-- Witness for C6 at a concrete input. -/
theorem noise_primitive_range_witness :
    -1 ≤ octaveNoise2D (NoiseGenerator.mk' 0).permutation 0 0 1 1 1 ∧
      octaveNoise2D (NoiseGenerator.mk' 0).permutation 0 0 1 1 1 ≤ 1 :=
  (noise_primitive_range (NoiseGenerator.mk' 0) 0 0 1 1 1 (le_refl 1) one_pos).2

/-- The amplitude sum of the ridged loop is nonnegative. -/
theorem ridgedAux_snd_nonneg (perm : List ℕ) (x y persistence : ℝ)
    (hp : 0 ≤ persistence) :
    ∀ n amplitude frequency, 0 ≤ amplitude →
      0 ≤ (ridgedAux perm x y persistence n amplitude frequency).2 := by
  intro n
  induction n with
  | zero => intro amplitude frequency _; simp [ridgedAux]
  | succ m ih =>
    intro amplitude frequency ha
    have := ih (amplitude * persistence) (frequency * 2) (mul_nonneg ha hp)
    simp only [ridgedAux]
    linarith

/-- The accumulated ridged value is nonnegative: each octave contributes
`(1 - |n|)^2 * amplitude`. -/
theorem ridgedAux_fst_nonneg (perm : List ℕ) (x y persistence : ℝ)
    (hp : 0 ≤ persistence) :
    ∀ n amplitude frequency, 0 ≤ amplitude →
      0 ≤ (ridgedAux perm x y persistence n amplitude frequency).1 := by
  intro n
  induction n with
  | zero => intro amplitude frequency _; simp [ridgedAux]
  | succ m ih =>
    intro amplitude frequency ha
    have hrest := ih (amplitude * persistence) (frequency * 2) (mul_nonneg ha hp)
    have hterm : 0 ≤ (1 - |perlin2D perm (x * frequency) (y * frequency)|) ^ 2 * amplitude :=
      mul_nonneg (sq_nonneg _) ha
    simp only [ridgedAux]
    linarith

/-- The amplitude sum of the billow loop is nonnegative. -/
theorem billowAux_snd_nonneg (perm : List ℕ) (x y persistence : ℝ)
    (hp : 0 ≤ persistence) :
    ∀ n amplitude frequency, 0 ≤ amplitude →
      0 ≤ (billowAux perm x y persistence n amplitude frequency).2 := by
  intro n
  induction n with
  | zero => intro amplitude frequency _; simp [billowAux]
  | succ m ih =>
    intro amplitude frequency ha
    have := ih (amplitude * persistence) (frequency * 2) (mul_nonneg ha hp)
    simp only [billowAux]
    linarith

/-- The accumulated billow value is nonnegative: each octave contributes
`|n| * amplitude`. -/
theorem billowAux_fst_nonneg (perm : List ℕ) (x y persistence : ℝ)
    (hp : 0 ≤ persistence) :
    ∀ n amplitude frequency, 0 ≤ amplitude →
      0 ≤ (billowAux perm x y persistence n amplitude frequency).1 := by
  intro n
  induction n with
  | zero => intro amplitude frequency _; simp [billowAux]
  | succ m ih =>
    intro amplitude frequency ha
    have hrest := ih (amplitude * persistence) (frequency * 2) (mul_nonneg ha hp)
    have hterm : 0 ≤ |perlin2D perm (x * frequency) (y * frequency)| * amplitude :=
      mul_nonneg (abs_nonneg _) ha
    simp only [billowAux]
    linarith

/-- C10: `ridgedNoise2D` and `billow2D` never return a negative value: every
octave contributes `(1 - |n|)^2` respectively `|n|`, both nonnegative, and
the normalizing amplitude sum is nonnegative. -/
theorem ridged_billow_nonneg (g : NoiseGenerator) (x y : ℝ) (octaves : ℕ)
    (persistence scale : ℝ) (hoct : 1 ≤ octaves) (hpers : 0 < persistence) :
    0 ≤ ridgedNoise2D g.permutation x y octaves persistence scale ∧
      0 ≤ billow2D g.permutation x y octaves persistence scale := by
  have hp : (0 : ℝ) ≤ persistence := le_of_lt hpers
  constructor
  · exact div_nonneg
      (ridgedAux_fst_nonneg g.permutation x y persistence hp octaves 1 scale (by norm_num))
      (ridgedAux_snd_nonneg g.permutation x y persistence hp octaves 1 scale (by norm_num))
  · exact div_nonneg
      (billowAux_fst_nonneg g.permutation x y persistence hp octaves 1 scale (by norm_num))
      (billowAux_snd_nonneg g.permutation x y persistence hp octaves 1 scale (by norm_num))

/-- Witness for C10 at a concrete input. -/
theorem ridged_billow_nonneg_witness :
    0 ≤ ridgedNoise2D (NoiseGenerator.mk' 0).permutation 0 0 1 1 1 ∧
      0 ≤ billow2D (NoiseGenerator.mk' 0).permutation 0 0 1 1 1 :=
  ridged_billow_nonneg (NoiseGenerator.mk' 0) 0 0 1 1 1 (le_refl 1) one_pos

/-- C2: `BiomeNoise.getBiome` agrees with the priority rule of the spec (first
match wins: elevation, cold mountain, desert, forest, city, plains)
evaluated on the temperature, humidity and elevation channels, and the
channels are seeded `seed`, `seed + 1000`, `seed + 2000`. -/
theorem biome_priority_rule (seed x z : ℝ) :
    getBiome (mkBiomeNoise seed) x z =
      specBiomeRule (getTemperature (mkBiomeNoise seed) x z)
        (getHumidity (mkBiomeNoise seed) x z)
        (getElevation (mkBiomeNoise seed) x z) ∧
      (mkBiomeNoise seed).temperature = NoiseGenerator.mk' seed ∧
      (mkBiomeNoise seed).humidity = NoiseGenerator.mk' (seed + 1000) ∧
      (mkBiomeNoise seed).elevation = NoiseGenerator.mk' (seed + 2000) :=
  ⟨rfl, rfl, rfl, rfl⟩

/-- Running a query sequence never changes the terrain state: the
`getHeightAt`/`getBiomeAt` bodies contain no assignment. -/
theorem runQueries_state (st : TerrainState) (qs : List TQuery) :
    (runQueries st qs).2 = st := by
  induction qs with
  | nil => rfl
  | cons q qs ih =>
    have hstep : (stepQuery st q).2 = st := by cases q <;> rfl
    simp only [runQueries, hstep, ih]

/-- The answers of a query sequence are the pure per-query function of the
biome noise mapped over the queries. -/
theorem runQueries_outputs (st : TerrainState) (qs : List TQuery) :
    (runQueries st qs).1 = qs.map (pureAnswer st.biomeNoise) := by
  induction qs with
  | nil => rfl
  | cons q qs ih =>
    have hstep2 : (stepQuery st q).2 = st := by cases q <;> rfl
    have hstep1 : (stepQuery st q).1 = pureAnswer st.biomeNoise q := by cases q <;> rfl
    simp only [runQueries, hstep2, hstep1, ih, List.map_cons]

/-- C1: for a fixed seed, the terrain height/biome queries are pure
functions of the coordinates: any two calls with the same coordinates, at
any positions of any two call sequences run against states built from the
same seed, return identical results, and neither run mutates its state. -/
theorem terrain_query_determinism (seed : ℝ) (st₁ st₂ : TerrainState)
    (h₁ : st₁.biomeNoise = mkBiomeNoise seed) (h₂ : st₂.biomeNoise = mkBiomeNoise seed)
    (qs₁ qs₂ : List TQuery) (i j : ℕ) (q : TQuery)
    (hq₁ : qs₁[i]? = some q) (hq₂ : qs₂[j]? = some q) :
    (runQueries st₁ qs₁).1[i]? = (runQueries st₂ qs₂).1[j]? ∧
      (runQueries st₁ qs₁).2 = st₁ ∧ (runQueries st₂ qs₂).2 = st₂ := by
  refine ⟨?_, runQueries_state _ _, runQueries_state _ _⟩
  rw [runQueries_outputs, runQueries_outputs, List.getElem?_map, List.getElem?_map,
    hq₁, hq₂, h₁, h₂]

/-- Witness for C1: the same query in two different runs (the second run
also differs in pool state) from seed 0 answers identically, and both runs
leave their states unchanged. -/
theorem terrain_query_determinism_witness :
    (runQueries { emptyTerrain with biomeNoise := mkBiomeNoise 0 }
        [TQuery.height 1 2]).1[0]? =
      (runQueries { emptyTerrain with chunkPool := [freshChunk], biomeNoise := mkBiomeNoise 0 }
        [TQuery.biome 3 4, TQuery.height 1 2]).1[1]? ∧
      (runQueries { emptyTerrain with biomeNoise := mkBiomeNoise 0 }
        [TQuery.height 1 2]).2 =
        { emptyTerrain with biomeNoise := mkBiomeNoise 0 } ∧
      (runQueries { emptyTerrain with chunkPool := [freshChunk], biomeNoise := mkBiomeNoise 0 }
        [TQuery.biome 3 4, TQuery.height 1 2]).2 =
        { emptyTerrain with chunkPool := [freshChunk], biomeNoise := mkBiomeNoise 0 } :=
  terrain_query_determinism 0 _ _ rfl rfl _ _ 0 1 (TQuery.height 1 2) rfl rfl

/-- Rotation about the up axis preserves the squared XZ norm. -/
theorem rotateVector_xz_norm (v : Vec3) (a : ℝ) :
    (rotateVector v a).x ^ 2 + (rotateVector v a).z ^ 2 = v.x ^ 2 + v.z ^ 2 := by
  simp only [rotateVector]
  linear_combination (v.x ^ 2 + v.z ^ 2) * Real.sin_sq_add_cos_sq a

/-- One `extendRoad` iteration rotates the direction by some angle and
appends the stepped, height-blended waypoint. -/
theorem extendStep_eq (perm : List ℕ) (hf : ℝ → ℝ → ℝ) (curv tf s : ℝ)
    (l : List Vec3) (pos dir : Vec3) :
    ∃ ang : ℝ,
      extendStep perm hf curv tf s (l, pos, dir) =
        (l ++ [stepPoint hf tf s pos (rotateVector dir ang)],
         stepPoint hf tf s pos (rotateVector dir ang),
         rotateVector dir ang) := by
  refine ⟨octaveNoise2D perm ((l.length : ℝ) * (1 / 100))
    (((l.length : ℝ) * (1 / 100)) * (7 / 10)) 3 (3 / 5) (1 / 2) * curv * (1 / 2), ?_⟩
  rfl

/-- The extension invariant is preserved by one iteration. -/
theorem extendStep_inv (perm : List ℕ) (hf : ℝ → ℝ → ℝ) (curv tf s : ℝ)
    (p0 : Vec3) (len : ℕ) (acc : List Vec3 × Vec3 × Vec3)
    (h : extendInv s p0 len acc) (hlen : 0 < len) :
    extendInv s p0 (len + 1) (extendStep perm hf curv tf s acc) := by
  obtain ⟨l, pos, dir⟩ := acc
  obtain ⟨hlength, hhead, hlast, hunit, hspaced⟩ := h
  dsimp only at hlength hhead hlast hunit hspaced
  obtain ⟨ang, heq⟩ := extendStep_eq perm hf curv tf s l pos dir
  rw [heq]
  set d := rotateVector dir ang with hd
  have hdunit : d.x ^ 2 + d.z ^ 2 = 1 := by
    rw [hd, rotateVector_xz_norm]; exact hunit
  have hlpos : 0 < l.length := by omega
  refine ⟨?_, ?_, ?_, hdunit, ?_⟩
  · show (l ++ [stepPoint hf tf s pos d]).length = len + 1
    simp [hlength]
  · show (l ++ [stepPoint hf tf s pos d]).getD 0 Vec3.zero = p0
    rw [List.getD_append _ _ _ _ hlpos]; exact hhead
  · show stepPoint hf tf s pos d =
      (l ++ [stepPoint hf tf s pos d]).getD (len + 1 - 1) Vec3.zero
    have h1 : len + 1 - 1 = l.length := by omega
    rw [h1, List.getD_append_right _ _ _ _ (le_refl _), Nat.sub_self]
    rfl
  · show pathSpaced s (l ++ [stepPoint hf tf s pos d])
    intro i hi
    simp only [List.length_append, List.length_singleton] at hi
    rcases lt_or_ge (i + 1) l.length with hlt | hge
    · have hilt : i < l.length := by omega
      rw [List.getD_append _ _ _ _ hlt, List.getD_append _ _ _ _ hilt]
      exact hspaced i (by omega)
    · have hieq : i + 1 = l.length := by omega
      have hil : i < l.length := by omega
      rw [hieq, List.getD_append_right _ _ _ _ (le_refl _), Nat.sub_self,
        List.getD_append _ _ _ _ hil]
      have hposi : l.getD i Vec3.zero = pos := by
        rw [hlast]
        congr 1
        omega
      rw [hposi]
      show ((stepPoint hf tf s pos d).x - pos.x) ^ 2 +
        ((stepPoint hf tf s pos d).z - pos.z) ^ 2 = s ^ 2
      simp only [stepPoint]
      have harith : (pos.x + d.x * s - pos.x) ^ 2 + (pos.z + d.z * s - pos.z) ^ 2 =
          (d.x ^ 2 + d.z ^ 2) * s ^ 2 := by ring
      rw [harith, hdunit, one_mul]

/-- The extension invariant is preserved by any number of iterations. -/
theorem extendIter_inv (perm : List ℕ) (hf : ℝ → ℝ → ℝ) (curv tf s : ℝ) (p0 : Vec3) :
    ∀ (n : ℕ) (len : ℕ) (acc : List Vec3 × Vec3 × Vec3),
      extendInv s p0 len acc → 0 < len →
      extendInv s p0 (len + n) (extendIter perm hf curv tf s n acc) := by
  intro n
  induction n with
  | zero => intro len acc h _; simpa using h
  | succ m ih =>
    intro len acc h hlen
    have hstep := extendStep_inv perm hf curv tf s p0 len acc h hlen
    have := ih (len + 1) _ hstep (by omega)
    have harith : len + 1 + m = len + (m + 1) := by omega
    rw [harith] at this
    exact this

/-- `Vec3.dist` of a point to itself is zero. -/
theorem Vec3.dist_self (a : Vec3) : Vec3.dist a a = 0 := by
  simp [Vec3.dist, Vec3.subtract, Vec3.len]

/-- `Vec3.dist` is nonnegative. -/
theorem Vec3.dist_nonneg (a b : Vec3) : 0 ≤ Vec3.dist a b :=
  Real.sqrt_nonneg _

/-- A best-so-far fold keeps its incumbent when no candidate strictly
improves on it. -/
theorem better_foldl_keep (l : List (ℝ × ℝ)) (t0 d0 : ℝ)
    (h : ∀ c ∈ l, d0 ≤ c.2) : l.foldl better (t0, some d0) = (t0, some d0) := by
  induction l with
  | nil => rfl
  | cons c cs ih =>
    have hc : d0 ≤ c.2 := h c (List.mem_cons_self c cs)
    have hstep : better (t0, some d0) c = (t0, some d0) := by
      simp [better, not_lt.mpr hc]
    rw [List.foldl_cons, hstep]
    exact ih (fun c' hc' => h c' (List.mem_cons_of_mem c hc'))

/-- Scanning sampled candidates from the `Infinity` incumbent returns the
first candidate when no later candidate strictly improves on it. -/
theorem better_foldl_first (f : ℕ → ℝ × ℝ) (t0 d0 : ℝ) :
    ∀ n, 0 < n → f 0 = (t0, d0) → (∀ i, i < n → d0 ≤ (f i).2) →
      ((List.range n).map f).foldl better ((0 : ℝ), (none : Option ℝ)) = (t0, some d0) := by
  intro n
  induction n with
  | zero => intro h; omega
  | succ m ih =>
    intro _ h0 hall
    rcases Nat.eq_zero_or_pos m with hm | hm
    · subst hm
      simp [List.range_succ, h0, better]
    · rw [List.range_succ, List.map_append, List.foldl_append,
        ih hm h0 (fun i hi => hall i (by omega))]
      show better (t0, some d0) (f m) = (t0, some d0)
      have hm2 : d0 ≤ (f m).2 := hall m (by omega)
      simp [better, not_lt.mpr hm2]

/-- `getPoint` at parameter zero returns the first control point (for at
least two control points). -/
theorem getPoint_zero (pts : List Vec3) (h2 : 2 ≤ pts.length) :
    getPoint pts 0 = pts.getD 0 Vec3.zero := by
  have hnl : ¬ pts.length < 2 := not_lt.mpr h2
  have hseg : splineSegment pts.length 0 = 0 := by
    unfold splineSegment
    rw [zero_mul, Int.floor_zero]
    have hge : (0 : ℤ) ≤ (pts.length : ℤ) - 2 := by
      have : (2 : ℤ) ≤ (pts.length : ℤ) := by exact_mod_cast h2
      omega
    rw [min_eq_left hge]
    rfl
  have hlt : splineLocalT pts.length 0 = 0 := by
    unfold splineLocalT
    rw [hseg, zero_mul]
    simp
  simp only [getPoint, hnl, if_false, hseg, hlt]
  unfold getSegmentPoint
  ext <;> simp

/-- Characterization of `getRoadInfo` when the distance at parameter zero
is a global minimum of the sampled distances: the search returns `t = 0`
with that distance. -/
theorem getRoadInfo_of_min (st : RoadState) (pts : List Vec3) (p : Vec3) (d0 : ℝ)
    (hsp : st.spline = some pts)
    (h0 : p.dist (getPoint pts 0) = d0)
    (hall : ∀ t : ℝ, d0 ≤ p.dist (getPoint pts t)) :
    getRoadInfo st p = some ⟨getPoint pts 0, getTangent pts 0, d0, 0⟩ := by
  have h00 : (fun i : ℕ => ((i : ℝ) / 100, p.dist (getPoint pts ((i : ℝ) / 100)))) 0 =
      ((0 : ℝ), d0) := by
    simp [h0]
  have hcoarse : (roadCoarse pts p).foldl better ((0 : ℝ), (none : Option ℝ)) =
      ((0 : ℝ), some d0) := by
    unfold roadCoarse
    exact better_foldl_first
      (fun i : ℕ => ((i : ℝ) / 100, p.dist (getPoint pts ((i : ℝ) / 100))))
      0 d0 101 (by norm_num) h00 (fun i _ => hall _)
  have hrefine : (roadRefine pts p 0).foldl better ((0 : ℝ), some d0) =
      ((0 : ℝ), some d0) := by
    apply better_foldl_keep
    intro c hc
    rcases List.mem_map.mp hc with ⟨k, _, rfl⟩
    exact hall _
  have hbest : roadBest pts p = ((0 : ℝ), some d0) := by
    unfold roadBest
    rw [hcoarse]
    exact hrefine
  simp only [getRoadInfo, hsp, hbest, Option.map_some']

/-- C7: from the constructor state (path holding only the origin, heading
+Z, segment length 50), `extendRoad(500)` appends exactly 10 waypoints, each
consecutive pair of path points lies exactly `segmentLength = 50` apart in
the XZ-plane projection (the rotated heading stays an XZ unit vector and
the terrain-following blend changes only `y`), and afterwards
`getRoadInfo((0,0,0))` reports the nearest point at `t = 0` with distance
`0`.  This holds for every terrain height function. -/
theorem road_extend_scenario (hf : ℝ → ℝ → ℝ) :
    (extendRoad hf roadInit 500).path.length = 11 ∧
    roadInit.path.length = 1 ∧
    (∀ i : ℕ, i < 10 →
      Real.sqrt
        ((((extendRoad hf roadInit 500).path.getD (i + 1) Vec3.zero).x -
            ((extendRoad hf roadInit 500).path.getD i Vec3.zero).x) ^ 2 +
          (((extendRoad hf roadInit 500).path.getD (i + 1) Vec3.zero).z -
            ((extendRoad hf roadInit 500).path.getD i Vec3.zero).z) ^ 2) = 50) ∧
    (∃ info, getRoadInfo (extendRoad hf roadInit 500) Vec3.zero = some info ∧
      info.t = 0 ∧ info.distance = 0) := by
  have hinit : extendInv 50 Vec3.zero 1 ([Vec3.zero], Vec3.zero, Vec3.forward) := by
    refine ⟨rfl, rfl, rfl, by norm_num [Vec3.forward], ?_⟩
    intro i hi
    simp at hi
  have hceil : ⌈(500 : ℝ) / 50⌉₊ = 10 := by
    rw [show (500 : ℝ) / 50 = ((10 : ℕ) : ℝ) by norm_num, Nat.ceil_natCast]
  have hinv := extendIter_inv (generatePermutation 54321) hf
    (3 / 10) (4 / 5) 50 Vec3.zero 10 1
    ([Vec3.zero], Vec3.zero, Vec3.forward)
    hinit (by norm_num)
  have hpath : (extendRoad hf roadInit 500).path =
      (extendIter (generatePermutation 54321) hf (3 / 10) (4 / 5) 50 10
        ([Vec3.zero], Vec3.zero, Vec3.forward)).1 := by
    simp only [extendRoad, roadInit, hceil]
  obtain ⟨hlength, hhead, _, _, hspaced⟩ := hinv
  have hlen11 : (extendRoad hf roadInit 500).path.length = 11 := by
    rw [hpath]; exact hlength
  refine ⟨hlen11, rfl, ?_, ?_⟩
  · intro i hi
    have hsp := hspaced i (by omega)
    rw [hpath]
    rw [hsp]
    rw [show (50 : ℝ) ^ 2 = 2500 by norm_num,
      show (2500 : ℝ) = 50 ^ 2 by norm_num,
      Real.sqrt_sq (by norm_num : (0 : ℝ) ≤ 50)]
  · have hsp2 : (extendRoad hf roadInit 500).spline =
        some (extendRoad hf roadInit 500).path := by
      simp only [extendRoad, roadInit, hceil]
    have hlen2 : 2 ≤ (extendRoad hf roadInit 500).path.length := by omega
    have hp0 : (extendRoad hf roadInit 500).path.getD 0 Vec3.zero = Vec3.zero := by
      rw [hpath]; exact hhead
    have h0 : Vec3.zero.dist (getPoint (extendRoad hf roadInit 500).path 0) = 0 := by
      rw [getPoint_zero _ hlen2, hp0, Vec3.dist_self]
    refine ⟨⟨getPoint (extendRoad hf roadInit 500).path 0,
      getTangent (extendRoad hf roadInit 500).path 0, 0, 0⟩, ?_, rfl, rfl⟩
    exact getRoadInfo_of_min _ _ _ _ hsp2 h0 (fun t => Vec3.dist_nonneg _ _)

/-- Witness for C7 at the constant-zero terrain height function and the
first waypoint pair. -/
theorem road_extend_scenario_witness :
    Real.sqrt
      ((((extendRoad (fun _ _ => 0) roadInit 500).path.getD 1 Vec3.zero).x -
          ((extendRoad (fun _ _ => 0) roadInit 500).path.getD 0 Vec3.zero).x) ^ 2 +
        (((extendRoad (fun _ _ => 0) roadInit 500).path.getD 1 Vec3.zero).z -
          ((extendRoad (fun _ _ => 0) roadInit 500).path.getD 0 Vec3.zero).z) ^ 2) = 50 :=
  (road_extend_scenario (fun _ _ => 0)).2.2.1 0 (by decide)

/-- The segment index of a two-point spline is always zero (the `min` with
`segmentCount - 1 = 0` clamps it). -/
theorem splineSegment_two_eq_zero (t : ℝ) : splineSegment 2 t = 0 := by
  unfold splineSegment
  apply Int.toNat_of_nonpos
  refine le_trans (min_le_right _ _) ?_
  norm_num

/-- Every point of the straight two-waypoint spline lies on the Z axis. -/
theorem getPoint_straight_xy (t : ℝ) :
    (getPoint [Vec3.zero, (⟨0, 0, 50⟩ : Vec3)] t).x = 0 ∧
      (getPoint [Vec3.zero, (⟨0, 0, 50⟩ : Vec3)] t).y = 0 := by
  have hred : getPoint [Vec3.zero, (⟨0, 0, 50⟩ : Vec3)] t =
      getSegmentPoint [Vec3.zero, (⟨0, 0, 50⟩ : Vec3)] 0 (splineLocalT 2 t) := by
    unfold getPoint
    rw [if_neg (by norm_num)]
    show getSegmentPoint _ (splineSegment 2 t) (splineLocalT 2 t) = _
    rw [splineSegment_two_eq_zero]
  rw [hred]
  unfold getSegmentPoint
  constructor <;> simp [Vec3.zero]

/-- Distance from the probe point `(6, 0, 0)` to any point of the straight
spline is at least 6. -/
theorem roadStraight_dist_lower (t : ℝ) :
    6 ≤ Vec3.dist ⟨6, 0, 0⟩ (getPoint [Vec3.zero, (⟨0, 0, 50⟩ : Vec3)] t) := by
  obtain ⟨hx, hy⟩ := getPoint_straight_xy t
  unfold Vec3.dist Vec3.subtract Vec3.len
  dsimp only
  rw [hx, hy]
  have h6 : (6 : ℝ) = Real.sqrt 36 := by
    rw [show (36 : ℝ) = 6 ^ 2 by norm_num, Real.sqrt_sq (by norm_num : (0 : ℝ) ≤ 6)]
  rw [h6]
  apply Real.sqrt_le_sqrt
  nlinarith [sq_nonneg ((0 : ℝ) - (getPoint [Vec3.zero, (⟨0, 0, 50⟩ : Vec3)] t).z)]

/-- Distance from the probe point to the spline start is exactly 6. -/
theorem roadStraight_dist_zero :
    Vec3.dist ⟨6, 0, 0⟩ (getPoint [Vec3.zero, (⟨0, 0, 50⟩ : Vec3)] 0) = 6 := by
  rw [getPoint_zero _ (by norm_num)]
  show Vec3.dist ⟨6, 0, 0⟩ Vec3.zero = 6
  unfold Vec3.dist Vec3.subtract Vec3.len Vec3.zero
  dsimp only
  rw [show ((6 : ℝ) - 0) ^ 2 + ((0 : ℝ) - 0) ^ 2 + ((0 : ℝ) - 0) ^ 2 = 6 ^ 2 by norm_num,
    Real.sqrt_sq (by norm_num : (0 : ℝ) ≤ 6)]

/-- C8 counterexample: on the straight road state, the point `(6, 0, 0)`
lies distance 6 from the centerline — more than the half-width
`roadWidth / 2 = 4` — yet `isOnRoad` with its default tolerance (the full
`roadWidth = 8`) reports it on the road, and `getRoadHeight` also answers
for it.  This refutes the claim that the default test is against the road
half-width. -/
theorem road_halfwidth_counterexample :
    isOnRoadDefault roadStraight ⟨6, 0, 0⟩ = true ∧
    (∀ info, getRoadInfo roadStraight ⟨6, 0, 0⟩ = some info →
      ¬ info.distance ≤ roadStraight.roadWidth / 2) ∧
    getRoadHeight roadStraight 6 0 ≠ none := by
  have hinfo := getRoadInfo_of_min roadStraight [Vec3.zero, (⟨0, 0, 50⟩ : Vec3)] ⟨6, 0, 0⟩ 6
    rfl roadStraight_dist_zero roadStraight_dist_lower
  refine ⟨?_, ?_, ?_⟩
  · unfold isOnRoadDefault isOnRoad
    rw [hinfo]
    dsimp only
    rw [if_pos (show (6 : ℝ) ≤ roadStraight.roadWidth by
      norm_num [roadStraight, roadInit])]
  · intro info h
    rw [hinfo] at h
    injection h with h2
    rw [← h2]
    dsimp only
    norm_num [roadStraight, roadInit]
  · unfold getRoadHeight
    rw [hinfo]
    dsimp only
    rw [if_pos (show (6 : ℝ) ≤ roadStraight.roadWidth by
      norm_num [roadStraight, roadInit])]
    simp

/-- C8 amended: `isOnRoad` with its default tolerance reports a point on
the road exactly when the nearest-point distance is at most the full
`roadWidth` (not the half-width), and `getRoadHeight` answers exactly for
such points. -/
theorem road_tolerance_full_width (st : RoadState) (p : Vec3) (x z : ℝ) :
    (isOnRoadDefault st p = true ↔
      ∃ info, getRoadInfo st p = some info ∧ info.distance ≤ st.roadWidth) ∧
    (∀ h : ℝ, getRoadHeight st x z = some h ↔
      ∃ info, getRoadInfo st ⟨x, 0, z⟩ = some info ∧ info.distance ≤ st.roadWidth ∧
        h = info.position.y) := by
  constructor
  · unfold isOnRoadDefault isOnRoad
    cases hg : getRoadInfo st p with
    | none => simp
    | some info =>
      dsimp only
      constructor
      · intro h
        refine ⟨info, rfl, ?_⟩
        by_contra hc
        rw [if_neg hc] at h
        exact Bool.false_ne_true h
      · rintro ⟨info2, hi2, hd⟩
        injection hi2 with hi2
        rw [if_pos (hi2 ▸ hd)]
  · intro h
    unfold getRoadHeight
    cases hg : getRoadInfo st ⟨x, 0, z⟩ with
    | none => simp
    | some info =>
      dsimp only
      by_cases hd : info.distance ≤ st.roadWidth
      · rw [if_pos hd]
        constructor
        · intro hsome
          injection hsome with hh
          exact ⟨info, rfl, hd, hh.symm⟩
        · rintro ⟨info2, hi2, _, hh⟩
          injection hi2 with hi2
          rw [hh, hi2]
      · rw [if_neg hd]
        constructor
        · intro hsome
          exact absurd hsome (by simp)
        · rintro ⟨info2, hi2, hd2, _⟩
          injection hi2 with hi2
          exact absurd (hi2 ▸ hd2) hd

/-- The length of the zero vector is zero. -/
theorem Vec3.len_zero : Vec3.zero.len = 0 := by
  simp [Vec3.len, Vec3.zero]

/-- Normalizing the zero vector yields the zero vector (the
`len > 0` guard fails). -/
theorem Vec3.normalize_zero : Vec3.zero.normalize = Vec3.zero := by
  unfold Vec3.normalize
  rw [Vec3.len_zero, if_neg (lt_irrefl 0)]

/-- The Catmull-Rom derivative over a two-point list with equal endpoints
vanishes identically. -/
theorem raw_zero_pair (v : Vec3) (t : ℝ) :
    getSegmentTangentRaw [v, v] 0 t = Vec3.zero := by
  unfold getSegmentTangentRaw
  have h1 : ([v, v] : List Vec3).getD (0 - 1) Vec3.zero = v := rfl
  have h2 : ([v, v] : List Vec3).getD 0 Vec3.zero = v := rfl
  have h3 : ([v, v] : List Vec3).getD (0 + 1) Vec3.zero = v := rfl
  have h4 : ([v, v] : List Vec3).getD
      (min (([v, v] : List Vec3).length - 1) (0 + 2)) Vec3.zero = v := rfl
  rw [h1, h3, h4]
  ext <;> simp only [Vec3.zero] <;> ring

/-- C9 counterexample: over the degenerate two-point spline with equal
control points, the derivative of the cubic is the zero vector, and `getTangent`
returns the zero vector — not the default forward vector the claim
asserts. -/
theorem tangent_zero_fallback_counterexample :
    getSegmentTangentRaw [(⟨1, 2, 3⟩ : Vec3), ⟨1, 2, 3⟩] 0 (splineLocalT 2 (1 / 2)) =
      Vec3.zero ∧
    getTangent [(⟨1, 2, 3⟩ : Vec3), ⟨1, 2, 3⟩] (1 / 2) = Vec3.zero ∧
    Vec3.zero ≠ Vec3.forward := by
  refine ⟨raw_zero_pair _ _, ?_, ?_⟩
  · unfold getTangent
    rw [if_neg (by norm_num)]
    show getSegmentTangent [(⟨1, 2, 3⟩ : Vec3), ⟨1, 2, 3⟩] (splineSegment 2 (1 / 2))
      (splineLocalT 2 (1 / 2)) = Vec3.zero
    rw [splineSegment_two_eq_zero]
    unfold getSegmentTangent
    rw [raw_zero_pair]
    exact Vec3.normalize_zero
  · intro h
    have hz := congrArg Vec3.z h
    simp [Vec3.zero, Vec3.forward] at hz

/-- C9 amended: with fewer than two control points `getPoint` returns the
sole point (or the zero vector for an empty list) and `getTangent` the
default forward vector, without error; and whenever the derivative of the cubic
at `t` has zero length, `getTangent` falls back to the zero vector (not the
forward vector), never producing division by zero. -/
theorem spline_degenerate_fallbacks (pts : List Vec3) (p : Vec3) (t : ℝ) (seg : ℕ)
    (hdeg : getSegmentTangentRaw pts seg t = Vec3.zero) :
    getPoint ([] : List Vec3) t = Vec3.zero ∧
    getPoint [p] t = p ∧
    (pts.length < 2 → getTangent pts t = Vec3.forward) ∧
    getSegmentTangent pts seg t = Vec3.zero := by
  refine ⟨rfl, rfl, ?_, ?_⟩
  · intro h
    unfold getTangent
    rw [if_pos h]
  · unfold getSegmentTangent
    rw [hdeg]
    exact Vec3.normalize_zero

/-- Witness for the amended statement of C9 at concrete degenerate inputs. -/
theorem spline_degenerate_fallbacks_witness :
    getPoint ([] : List Vec3) (1 / 2) = Vec3.zero ∧
    getPoint [(⟨4, 5, 6⟩ : Vec3)] (1 / 2) = ⟨4, 5, 6⟩ ∧
    (([(⟨1, 2, 3⟩ : Vec3), ⟨1, 2, 3⟩] : List Vec3).length < 2 →
      getTangent [(⟨1, 2, 3⟩ : Vec3), ⟨1, 2, 3⟩] (1 / 2) = Vec3.forward) ∧
    getSegmentTangent [(⟨1, 2, 3⟩ : Vec3), ⟨1, 2, 3⟩] 0 (1 / 2) = Vec3.zero :=
  spline_degenerate_fallbacks [(⟨1, 2, 3⟩ : Vec3), ⟨1, 2, 3⟩] ⟨4, 5, 6⟩ (1 / 2) 0
    (raw_zero_pair ⟨1, 2, 3⟩ (1 / 2))

/-- C5 counterexample: a chunk that carried bounds and a triangle count is
released to the pool and immediately re-acquired; the acquired record still
carries the bounding box and triangle count of the previous tenant, unlike a
fresh record — release plus acquire does not fully reset the mutable
fields. -/
theorem chunk_pool_stale_bounds_counterexample :
    (getChunkFromPool (returnChunkToPool demoChunk [])).1.bounds = some demoBounds ∧
    (getChunkFromPool (returnChunkToPool demoChunk [])).1.bounds ≠ freshChunk.bounds ∧
    (getChunkFromPool (returnChunkToPool demoChunk [])).1.triangleCount = 7 ∧
    freshChunk.triangleCount = 0 := by
  refine ⟨rfl, ?_, rfl, rfl⟩
  intro h
  exact Option.noConfusion h

/-- C5 amended: releasing a chunk resets exactly its geometry pointers
(`vertices`, `indices`, GPU `buffers`) and its visibility flag; any chunk
acquired from a pool whose members were all released this way has those
four fields reset (the bounding box and the counters are not reset and may
carry values of the previous tenant). -/
theorem chunk_pool_geometry_reset (c : Chunk) (pool : List Chunk)
    (hpool : ∀ d ∈ pool, chunkGeomReset d) :
    (∀ d ∈ returnChunkToPool c pool, chunkGeomReset d) ∧
    chunkGeomReset (getChunkFromPool (returnChunkToPool c pool)).1 ∧
    chunkGeomReset (getChunkFromPool pool).1 := by
  refine ⟨?_, ⟨rfl, rfl, rfl, rfl⟩, ?_⟩
  · intro d hd
    rcases List.mem_cons.mp hd with h | h
    · subst h
      exact ⟨rfl, rfl, rfl, rfl⟩
    · exact hpool d h
  · cases pool with
    | nil => exact ⟨rfl, rfl, rfl, rfl⟩
    | cons d rest => exact hpool d (List.mem_cons_self d rest)

/-- Witness for the amended statement of C5: release into the empty pool, then
acquire. -/
theorem chunk_pool_geometry_reset_witness :
    (∀ d ∈ returnChunkToPool demoChunk [], chunkGeomReset d) ∧
    chunkGeomReset (getChunkFromPool (returnChunkToPool demoChunk [])).1 ∧
    chunkGeomReset (getChunkFromPool ([] : List Chunk)).1 :=
  chunk_pool_geometry_reset demoChunk [] (fun d hd => absurd hd (List.not_mem_nil d))

/-- Unloading a key absent from the registry is a no-op. -/
theorem unloadChunk_of_none (st : TerrainState) (k : ℤ × ℤ)
    (h : st.chunks k = none) : st.unloadChunk k = st := by
  unfold TerrainState.unloadChunk
  rw [h]

/-- Unloading a registered key pools the record (with geometry nulled) and
drops the key from all collections. -/
theorem unloadChunk_of_some (st : TerrainState) (k : ℤ × ℤ) (c : Chunk)
    (h : st.chunks k = some c) :
    st.unloadChunk k =
      { st with
        chunkPool := returnChunkToPool c st.chunkPool
        chunks := fun k2 => if k2 = k then none else st.chunks k2
        loadedChunks := st.loadedChunks.erase k
        visibleChunks := st.visibleChunks.erase k } := by
  unfold TerrainState.unloadChunk
  rw [h]

/-- Behavior of the unload fold over a duplicate-free list of loaded keys:
exactly those keys leave the loaded set and the registry; everything else,
and the noise and settings, are untouched; the set/registry agreement is
preserved. -/
theorem unload_fold_spec (L : List (ℤ × ℤ)) :
    ∀ st : TerrainState, st.loadedChunks.Nodup →
      (∀ k, k ∈ st.loadedChunks ↔ (st.chunks k).isSome) →
      L.Nodup → (∀ k ∈ L, k ∈ st.loadedChunks) →
      (∀ k, k ∈ (L.foldl TerrainState.unloadChunk st).loadedChunks ↔
        (k ∈ st.loadedChunks ∧ k ∉ L)) ∧
      (∀ k, k ∉ L → (L.foldl TerrainState.unloadChunk st).chunks k = st.chunks k) ∧
      (L.foldl TerrainState.unloadChunk st).loadedChunks.Nodup ∧
      (∀ k, k ∈ (L.foldl TerrainState.unloadChunk st).loadedChunks ↔
        ((L.foldl TerrainState.unloadChunk st).chunks k).isSome) ∧
      (L.foldl TerrainState.unloadChunk st).biomeNoise = st.biomeNoise ∧
      (L.foldl TerrainState.unloadChunk st).settings = st.settings := by
  induction L with
  | nil =>
    intro st h1 h2 _ _
    exact ⟨fun k => by simp, fun k _ => rfl, h1, h2, rfl, rfl⟩
  | cons k0 rest ih =>
    intro st hnd hsync hLnd hLsub
    have hk0 : k0 ∈ st.loadedChunks := hLsub k0 (List.mem_cons_self k0 rest)
    obtain ⟨c0, hc0⟩ := Option.isSome_iff_exists.mp ((hsync k0).mp hk0)
    have hstep := unloadChunk_of_some st k0 c0 hc0
    have h1loaded : (st.unloadChunk k0).loadedChunks = st.loadedChunks.erase k0 := by
      rw [hstep]
    have h1chunks : (st.unloadChunk k0).chunks =
        fun k2 => if k2 = k0 then none else st.chunks k2 := by rw [hstep]
    have h1bn : (st.unloadChunk k0).biomeNoise = st.biomeNoise := by rw [hstep]
    have h1set : (st.unloadChunk k0).settings = st.settings := by rw [hstep]
    have h1nd : (st.unloadChunk k0).loadedChunks.Nodup := by
      rw [h1loaded]; exact hnd.erase k0
    have h1sync : ∀ k, k ∈ (st.unloadChunk k0).loadedChunks ↔
        ((st.unloadChunk k0).chunks k).isSome := by
      intro k
      rw [h1loaded, h1chunks]
      by_cases hk : k = k0
      · subst hk
        constructor
        · intro hin
          exact absurd ((hnd.mem_erase_iff).mp hin).1 (by simp)
        · intro hin
          simp at hin
      · rw [List.mem_erase_of_ne hk]
        simp only [if_neg hk]
        exact hsync k
    have hrestnd := (List.nodup_cons.mp hLnd).2
    have hk0rest := (List.nodup_cons.mp hLnd).1
    have hrestsub : ∀ k ∈ rest, k ∈ (st.unloadChunk k0).loadedChunks := by
      intro k hk
      rw [h1loaded]
      have hne : k ≠ k0 := fun he => hk0rest (he ▸ hk)
      exact (List.mem_erase_of_ne hne).mpr (hLsub k (List.mem_cons_of_mem _ hk))
    obtain ⟨ih1, ih2, ih3, ih4, ih5, ih6⟩ := ih (st.unloadChunk k0) h1nd h1sync hrestnd hrestsub
    rw [List.foldl_cons]
    refine ⟨?_, ?_, ih3, ih4, by rw [ih5, h1bn], by rw [ih6, h1set]⟩
    · intro k
      rw [ih1 k, h1loaded]
      by_cases hk : k = k0
      · subst hk
        constructor
        · rintro ⟨hin, _⟩
          exact absurd ((hnd.mem_erase_iff).mp hin).1 (by simp)
        · rintro ⟨_, hnot⟩
          exact absurd (List.mem_cons_self k rest) hnot
      · constructor
        · rintro ⟨hin, hnr⟩
          refine ⟨(List.mem_erase_of_ne hk).mp hin, ?_⟩
          intro hmem
          rcases List.mem_cons.mp hmem with h | h
          · exact hk h
          · exact hnr h
        · rintro ⟨hin, hnot⟩
          exact ⟨(List.mem_erase_of_ne hk).mpr hin,
            fun h => hnot (List.mem_cons_of_mem _ h)⟩
    · intro k hk
      have hne : k ≠ k0 := fun he => hk (he ▸ List.mem_cons_self k0 rest)
      have hnr : k ∉ rest := fun h => hk (List.mem_cons_of_mem _ h)
      rw [ih2 k hnr, h1chunks]
      simp only [if_neg hne]

/-- Shape of `generateChunk` on a key that is not loaded: the key joins the
loaded set and the registry with a chunk carrying the assigned LOD; nothing
else in the registry changes. -/
theorem generateChunk_spec (st : TerrainState) (cx cz : ℤ) (lod : ℕ)
    (h : (cx, cz) ∉ st.loadedChunks) :
    (st.generateChunk cx cz lod).loadedChunks = st.loadedChunks ++ [(cx, cz)] ∧
    (∀ k2, k2 ≠ (cx, cz) → (st.generateChunk cx cz lod).chunks k2 = st.chunks k2) ∧
    (∃ c, (st.generateChunk cx cz lod).chunks (cx, cz) = some c ∧ c.lod = lod) ∧
    (st.generateChunk cx cz lod).biomeNoise = st.biomeNoise ∧
    (st.generateChunk cx cz lod).settings = st.settings := by
  unfold TerrainState.generateChunk
  rw [if_neg h]
  refine ⟨rfl, ?_, ?_, rfl, rfl⟩
  · intro k2 hk2
    dsimp only
    rw [if_neg hk2]
  · refine ⟨createChunkBuffers (generateChunkGeometry st.biomeNoise
      { (getChunkFromPool st.chunkPool).1 with
        x := cx, z := cz, lod := lod
        worldX := (cx : ℝ) * chunkWorldSizeR
        worldZ := (cz : ℝ) * chunkWorldSizeR }), ?_, rfl⟩
    dsimp only
    rw [if_pos rfl]

/-- Behavior of the generation fold of `update`: it adds exactly the
required keys that were not yet loaded, assigning each the LOD of its
required-list entry, and never touches chunks of keys already loaded. -/
theorem gen_fold_spec (L : List ReqChunk) :
    ∀ st : TerrainState, st.loadedChunks.Nodup →
      (∀ k, k ∈ st.loadedChunks ↔ (st.chunks k).isSome) →
      (∀ k, k ∈ (L.foldl (fun s r => if (r.x, r.z) ∈ s.loadedChunks then s
          else s.generateChunk r.x r.z r.lod) st).loadedChunks ↔
        (k ∈ st.loadedChunks ∨ k ∈ L.map (fun r => (r.x, r.z)))) ∧
      (∀ k, k ∈ st.loadedChunks →
        (L.foldl (fun s r => if (r.x, r.z) ∈ s.loadedChunks then s
          else s.generateChunk r.x r.z r.lod) st).chunks k = st.chunks k) ∧
      (∀ k, k ∉ st.loadedChunks → k ∈ L.map (fun r => (r.x, r.z)) →
        ∃ c r, (L.foldl (fun s r => if (r.x, r.z) ∈ s.loadedChunks then s
          else s.generateChunk r.x r.z r.lod) st).chunks k = some c ∧
          r ∈ L ∧ (r.x, r.z) = k ∧ c.lod = r.lod) ∧
      (L.foldl (fun s r => if (r.x, r.z) ∈ s.loadedChunks then s
        else s.generateChunk r.x r.z r.lod) st).loadedChunks.Nodup ∧
      (∀ k, k ∈ (L.foldl (fun s r => if (r.x, r.z) ∈ s.loadedChunks then s
          else s.generateChunk r.x r.z r.lod) st).loadedChunks ↔
        ((L.foldl (fun s r => if (r.x, r.z) ∈ s.loadedChunks then s
          else s.generateChunk r.x r.z r.lod) st).chunks k).isSome) ∧
      (L.foldl (fun s r => if (r.x, r.z) ∈ s.loadedChunks then s
        else s.generateChunk r.x r.z r.lod) st).biomeNoise = st.biomeNoise ∧
      (L.foldl (fun s r => if (r.x, r.z) ∈ s.loadedChunks then s
        else s.generateChunk r.x r.z r.lod) st).settings = st.settings := by
  induction L with
  | nil =>
    intro st h1 h2
    exact ⟨fun k => by simp, fun k _ => rfl, fun k _ h => by simp at h, h1, h2, rfl, rfl⟩
  | cons r rest ih =>
    intro st hnd hsync
    rw [List.foldl_cons]
    by_cases hmem : (r.x, r.z) ∈ st.loadedChunks
    · rw [if_pos hmem]
      obtain ⟨ih1, ih2, ih3, ih4, ih5, ih6, ih7⟩ := ih st hnd hsync
      refine ⟨?_, ih2, ?_, ih4, ih5, ih6, ih7⟩
      · intro k
        rw [ih1 k]
        simp only [List.map_cons, List.mem_cons]
        constructor
        · rintro (h | h)
          · exact Or.inl h
          · exact Or.inr (Or.inr h)
        · rintro (h | h | h)
          · exact Or.inl h
          · exact Or.inl (h ▸ hmem)
          · exact Or.inr h
      · intro k hk hkmem
        simp only [List.map_cons, List.mem_cons] at hkmem
        rcases hkmem with h | h
        · exact absurd (h ▸ hmem) hk
        · obtain ⟨c, r2, hc, hr2, hkey, hlod⟩ := ih3 k hk h
          exact ⟨c, r2, hc, List.mem_cons_of_mem _ hr2, hkey, hlod⟩
    · rw [if_neg hmem]
      obtain ⟨hgl, hgother, ⟨cg, hcg, hcglod⟩, hgbn, hgset⟩ :=
        generateChunk_spec st r.x r.z r.lod hmem
      have hgnd : (st.generateChunk r.x r.z r.lod).loadedChunks.Nodup := by
        rw [hgl]
        simp [List.nodup_append, hnd, hmem]
      have hgsync : ∀ k, k ∈ (st.generateChunk r.x r.z r.lod).loadedChunks ↔
          ((st.generateChunk r.x r.z r.lod).chunks k).isSome := by
        intro k
        rw [hgl]
        by_cases hk : k = (r.x, r.z)
        · subst hk
          simp only [List.mem_append, List.mem_singleton, or_true, true_iff]
          rw [hcg]
          rfl
        · rw [hgother k hk]
          simp only [List.mem_append, List.mem_singleton, hk, or_false]
          exact hsync k
      obtain ⟨ih1, ih2, ih3, ih4, ih5, ih6, ih7⟩ :=
        ih (st.generateChunk r.x r.z r.lod) hgnd hgsync
      refine ⟨?_, ?_, ?_, ih4, ih5, by rw [ih6, hgbn], by rw [ih7, hgset]⟩
      · intro k
        rw [ih1 k, hgl]
        simp only [List.mem_append, List.mem_singleton, List.map_cons, List.mem_cons]
        tauto
      · intro k hk
        have hkg : k ∈ (st.generateChunk r.x r.z r.lod).loadedChunks := by
          rw [hgl]; exact List.mem_append_left _ hk
        have hne : k ≠ (r.x, r.z) := fun he => hmem (he ▸ hk)
        rw [ih2 k hkg, hgother k hne]
      · intro k hk hkmem
        simp only [List.map_cons, List.mem_cons] at hkmem
        by_cases hke : k = (r.x, r.z)
        · subst hke
          have hkg : (r.x, r.z) ∈ (st.generateChunk r.x r.z r.lod).loadedChunks := by
            rw [hgl]; simp
          rw [ih2 _ hkg, hcg]
          exact ⟨cg, r, rfl, List.mem_cons_self r rest, rfl, hcglod⟩
        · have hrest : k ∈ rest.map (fun r => (r.x, r.z)) := by
            rcases hkmem with h | h
            · exact absurd h.symm (fun he => hke he.symm)
            · exact h
          have hkng : k ∉ (st.generateChunk r.x r.z r.lod).loadedChunks := by
            rw [hgl]
            simp only [List.mem_append, List.mem_singleton]
            rintro (h | h)
            · exact hk h
            · exact hke h
          obtain ⟨c, r2, hc, hr2, hkey, hlod⟩ := ih3 k hkng hrest
          exact ⟨c, r2, hc, List.mem_cons_of_mem _ hr2, hkey, hlod⟩

/-- `updateVisibility` only rewrites the per-chunk visibility
flag and the visible-key list. -/
theorem updateVisibility_spec (st : TerrainState) (camPos : Vec3)
    (planes : Option (List FrustumPlane)) :
    (st.updateVisibility camPos planes).loadedChunks = st.loadedChunks ∧
    (∀ k, (st.updateVisibility camPos planes).chunks k =
      (st.chunks k).map (fun c => { c with visible := chunkVisible st camPos planes c })) ∧
    (st.updateVisibility camPos planes).biomeNoise = st.biomeNoise ∧
    (st.updateVisibility camPos planes).settings = st.settings :=
  ⟨rfl, fun _ => rfl, rfl, rfl⟩

/-- Membership in a conditional singleton list. -/
theorem mem_ite_singleton {α : Type} {P : Prop} [Decidable P] {a b : α} :
    (a ∈ if P then [b] else []) ↔ P ∧ a = b := by
  split_ifs with h <;> simp [h]

/-- The test `distance <= maxDistance` of the source on chunk coordinates is the
integer inequality on squared distances (`maxDistance = 4`). -/
theorem dist_cond_iff (dx dz : ℤ) :
    Real.sqrt (((dx : ℤ) : ℝ) ^ 2 + ((dz : ℤ) : ℝ) ^ 2) ≤ maxDistanceR ↔
      dx ^ 2 + dz ^ 2 ≤ 16 := by
  have hmax : maxDistanceR = 4 := by
    norm_num [maxDistanceR, renderDistanceR, chunkWorldSizeR]
  rw [hmax]
  constructor
  · intro h
    have hnn : (0 : ℝ) ≤ (dx : ℝ) ^ 2 + (dz : ℝ) ^ 2 := by positivity
    have h2 : ((dx : ℝ) ^ 2 + (dz : ℝ) ^ 2) ≤ 16 := by
      nlinarith [Real.sq_sqrt hnn, Real.sqrt_nonneg ((dx : ℝ) ^ 2 + (dz : ℝ) ^ 2)]
    exact_mod_cast h2
  · intro h
    have h2 : ((dx : ℝ) ^ 2 + (dz : ℝ) ^ 2) ≤ 16 := by exact_mod_cast h
    calc Real.sqrt ((dx : ℝ) ^ 2 + (dz : ℝ) ^ 2) ≤ Real.sqrt 16 := Real.sqrt_le_sqrt h2
      _ = 4 := by
        rw [show (16 : ℝ) = 4 ^ 2 by norm_num, Real.sqrt_sq (by norm_num : (0 : ℝ) ≤ 4)]

/-- Characterization of the required-chunk list: an entry exists for a key
exactly when the squared chunk-grid distance from the key to the chunk of the
anchor is at most 16, and the fields of the entry are determined by the key. -/
theorem mem_getRequiredChunks (camPos : Vec3) (auto : Bool) (r : ReqChunk) :
    r ∈ getRequiredChunks camPos auto ↔
      ((r.x - ⌊camPos.x / chunkWorldSizeR⌋) ^ 2 +
        (r.z - ⌊camPos.z / chunkWorldSizeR⌋) ^ 2 ≤ 16 ∧
       r.lod = (if auto then chunkLod r.x r.z camPos else 0) ∧
       r.distance = Real.sqrt (((r.x - ⌊camPos.x / chunkWorldSizeR⌋ : ℤ) : ℝ) ^ 2 +
         ((r.z - ⌊camPos.z / chunkWorldSizeR⌋ : ℤ) : ℝ) ^ 2)) := by
  unfold getRequiredChunks
  simp only [List.mem_flatMap, List.mem_map, List.mem_range, mem_ite_singleton,
    List.pure_def, List.bind_eq_flatMap, List.mem_singleton]
  constructor
  · rintro ⟨kx, ⟨⟨i, hi, rfl⟩, kz, ⟨⟨j, hj, rfl⟩, hcond, rfl⟩⟩⟩
    refine ⟨?_, rfl, rfl⟩
    have := (dist_cond_iff _ _).mp hcond
    convert this using 2
  · rintro ⟨hdist, hlod, hdistval⟩
    have hx2 : (r.x - ⌊camPos.x / chunkWorldSizeR⌋) ^ 2 ≤ 16 := by
      nlinarith [sq_nonneg (r.z - ⌊camPos.z / chunkWorldSizeR⌋)]
    have hz2 : (r.z - ⌊camPos.z / chunkWorldSizeR⌋) ^ 2 ≤ 16 := by
      nlinarith [sq_nonneg (r.x - ⌊camPos.x / chunkWorldSizeR⌋)]
    have hxb : -4 ≤ r.x - ⌊camPos.x / chunkWorldSizeR⌋ ∧
        r.x - ⌊camPos.x / chunkWorldSizeR⌋ ≤ 4 := by
      constructor <;> nlinarith
    have hzb : -4 ≤ r.z - ⌊camPos.z / chunkWorldSizeR⌋ ∧
        r.z - ⌊camPos.z / chunkWorldSizeR⌋ ≤ 4 := by
      constructor <;> nlinarith
    obtain ⟨hxl, hxr⟩ := hxb
    obtain ⟨hzl, hzr⟩ := hzb
    refine ⟨r.x,
      ⟨r.x - (⌊camPos.x / chunkWorldSizeR⌋ - 4),
        ⟨(r.x - (⌊camPos.x / chunkWorldSizeR⌋ - 4)).toNat, by omega, by omega⟩, by ring⟩,
      r.z,
      ⟨r.z - (⌊camPos.z / chunkWorldSizeR⌋ - 4),
        ⟨(r.z - (⌊camPos.z / chunkWorldSizeR⌋ - 4)).toNat, by omega, by omega⟩, by ring⟩,
      (dist_cond_iff _ _).mpr hdist, ?_⟩
    obtain ⟨x, z, lod, distance⟩ := r
    dsimp only at hlod hdistval ⊢
    rw [hlod, hdistval]

/-- The main behavior of `TerrainSystem.update`: after it returns, the
loaded keys are exactly those within the streaming radius; a previously
loaded, still required chunk is kept with only its visibility flag
rewritten; a newly required key is generated with the distance-bucket LOD;
and the registry/set agreement is preserved. -/
theorem update_spec (st : TerrainState) (camPos : Vec3)
    (planes : Option (List FrustumPlane))
    (hnd : st.loadedChunks.Nodup)
    (hsync : ∀ k, k ∈ st.loadedChunks ↔ (st.chunks k).isSome) :
    (∀ k : ℤ × ℤ, k ∈ (st.update camPos planes).loadedChunks ↔
      (k.1 - ⌊camPos.x / chunkWorldSizeR⌋) ^ 2 +
        (k.2 - ⌊camPos.z / chunkWorldSizeR⌋) ^ 2 ≤ 16) ∧
    (∀ k c, st.chunks k = some c → k ∈ st.loadedChunks →
      (k.1 - ⌊camPos.x / chunkWorldSizeR⌋) ^ 2 +
        (k.2 - ⌊camPos.z / chunkWorldSizeR⌋) ^ 2 ≤ 16 →
      ∃ v, (st.update camPos planes).chunks k = some { c with visible := v }) ∧
    (∀ kx kz : ℤ, (kx, kz) ∉ st.loadedChunks →
      (kx - ⌊camPos.x / chunkWorldSizeR⌋) ^ 2 +
        (kz - ⌊camPos.z / chunkWorldSizeR⌋) ^ 2 ≤ 16 →
      ∃ c, (st.update camPos planes).chunks (kx, kz) = some c ∧
        c.lod = (if st.settings.autoLOD then chunkLod kx kz camPos else 0)) ∧
    (st.update camPos planes).loadedChunks.Nodup ∧
    (∀ k, k ∈ (st.update camPos planes).loadedChunks ↔
      ((st.update camPos planes).chunks k).isSome) := by
  have hkeymem : ∀ k : ℤ × ℤ,
      k ∈ (getRequiredChunks camPos st.settings.autoLOD).map (fun r => (r.x, r.z)) ↔
      (k.1 - ⌊camPos.x / chunkWorldSizeR⌋) ^ 2 +
        (k.2 - ⌊camPos.z / chunkWorldSizeR⌋) ^ 2 ≤ 16 := by
    intro k
    rw [List.mem_map]
    constructor
    · rintro ⟨r, hr, rfl⟩
      exact ((mem_getRequiredChunks camPos _ r).mp hr).1
    · intro hd
      refine ⟨{ x := k.1, z := k.2,
                lod := if st.settings.autoLOD then chunkLod k.1 k.2 camPos else 0,
                distance := Real.sqrt (((k.1 - ⌊camPos.x / chunkWorldSizeR⌋ : ℤ) : ℝ) ^ 2 +
                  ((k.2 - ⌊camPos.z / chunkWorldSizeR⌋ : ℤ) : ℝ) ^ 2) }, ?_, rfl⟩
      exact (mem_getRequiredChunks camPos _ _).mpr ⟨hd, rfl, rfl⟩
  -- the unload phase
  have hLnd : (st.loadedChunks.filter (fun k =>
      ¬ (k ∈ (getRequiredChunks camPos st.settings.autoLOD).map (fun r => (r.x, r.z))))).Nodup :=
    hnd.filter _
  have hLsub : ∀ k ∈ st.loadedChunks.filter (fun k =>
      ¬ (k ∈ (getRequiredChunks camPos st.settings.autoLOD).map (fun r => (r.x, r.z)))),
      k ∈ st.loadedChunks := fun k hk => (List.mem_filter.mp hk).1
  obtain ⟨u1, u2, u3, u4, u5, u6⟩ :=
    unload_fold_spec _ st hnd hsync hLnd hLsub
  have hunl : st.unloadDistantChunks (getRequiredChunks camPos st.settings.autoLOD) =
      (st.loadedChunks.filter (fun k =>
        ¬ (k ∈ (getRequiredChunks camPos st.settings.autoLOD).map (fun r => (r.x, r.z))))).foldl
        TerrainState.unloadChunk st := rfl
  set st1 := st.unloadDistantChunks (getRequiredChunks camPos st.settings.autoLOD) with hst1def
  rw [← hunl] at u1 u2 u3 u4 u5 u6
  have hst1loaded : ∀ k, k ∈ st1.loadedChunks ↔
      (k ∈ st.loadedChunks ∧
        k ∈ (getRequiredChunks camPos st.settings.autoLOD).map (fun r => (r.x, r.z))) := by
    intro k
    rw [u1 k]
    simp only [List.mem_filter, decide_not, Bool.not_eq_true', decide_eq_false_iff_not]
    tauto
  have hst1chunks : ∀ k,
      k ∈ (getRequiredChunks camPos st.settings.autoLOD).map (fun r => (r.x, r.z)) →
      st1.chunks k = st.chunks k := by
    intro k hk
    apply u2
    intro hmem
    exact (of_decide_eq_true (List.mem_filter.mp hmem).2) hk
  -- the generation phase
  obtain ⟨g1, g2, g3, g4, g5, g6, g7⟩ :=
    gen_fold_spec (getRequiredChunks camPos st.settings.autoLOD) st1 u3 u4
  have hupd : st.update camPos planes =
      ((getRequiredChunks camPos st.settings.autoLOD).foldl
        (fun s r => if (r.x, r.z) ∈ s.loadedChunks then s
          else s.generateChunk r.x r.z r.lod) st1).updateVisibility camPos planes := rfl
  set st2 := (getRequiredChunks camPos st.settings.autoLOD).foldl
    (fun s r => if (r.x, r.z) ∈ s.loadedChunks then s
      else s.generateChunk r.x r.z r.lod) st1 with hst2def
  obtain ⟨v1, v2, v3, v4⟩ := updateVisibility_spec st2 camPos planes
  have hst2loaded : ∀ k : ℤ × ℤ, k ∈ st2.loadedChunks ↔
      (k.1 - ⌊camPos.x / chunkWorldSizeR⌋) ^ 2 +
        (k.2 - ⌊camPos.z / chunkWorldSizeR⌋) ^ 2 ≤ 16 := by
    intro k
    rw [g1 k, hst1loaded k, ← hkeymem k]
    tauto
  refine ⟨?_, ?_, ?_, ?_, ?_⟩
  · intro k
    rw [hupd, v1]
    exact hst2loaded k
  · intro k c hc hkl hkd
    have hkreq := (hkeymem k).mpr hkd
    have hk1 : k ∈ st1.loadedChunks := (hst1loaded k).mpr ⟨hkl, hkreq⟩
    have hch : st2.chunks k = some c := by
      rw [g2 k hk1, hst1chunks k hkreq, hc]
    refine ⟨chunkVisible st2 camPos planes c, ?_⟩
    rw [hupd, v2 k, hch]
    rfl
  · intro kx kz hknl hkd
    have hkreq := (hkeymem (kx, kz)).mpr hkd
    have hk1 : (kx, kz) ∉ st1.loadedChunks := by
      intro hmem
      exact hknl ((hst1loaded _).mp hmem).1
    obtain ⟨c, r, hc, hr, hrkey, hclod⟩ := g3 (kx, kz) hk1 hkreq
    have hlodr := ((mem_getRequiredChunks camPos _ r).mp hr).2.1
    have hrx : r.x = kx := congrArg Prod.fst hrkey
    have hrz : r.z = kz := congrArg Prod.snd hrkey
    refine ⟨{ c with visible := chunkVisible st2 camPos planes c }, ?_, ?_⟩
    · rw [hupd, v2 _, hc]
      rfl
    · show c.lod = _
      rw [hclod, hlodr, hrx, hrz]
  · rw [hupd, v1]
    exact g4
  · intro k
    rw [hupd, v1, v2 k]
    rw [g5 k]
    cases st2.chunks k <;> simp

/-- C3: after `update(anchor, planes)`, every chunk grid key within the
render-distance radius of the anchor (squared chunk-grid distance at most
`(renderDistance/chunkWorldSize)^2 = 16`) is in the loaded set, and no
loaded key is farther than twice that radius.  The state hypotheses are the
`Set`/`Map` representation invariants of the source (no duplicate keys;
`loadedChunks` and the `chunks` map agree). -/
theorem terrain_update_coverage (st : TerrainState) (camPos : Vec3)
    (planes : Option (List FrustumPlane))
    (hnd : st.loadedChunks.Nodup)
    (hsync : ∀ k, k ∈ st.loadedChunks ↔ (st.chunks k).isSome) :
    (∀ kx kz : ℤ,
      (kx - ⌊camPos.x / chunkWorldSizeR⌋) ^ 2 +
        (kz - ⌊camPos.z / chunkWorldSizeR⌋) ^ 2 ≤ 16 →
      (kx, kz) ∈ (st.update camPos planes).loadedChunks) ∧
    (∀ k ∈ (st.update camPos planes).loadedChunks,
      ¬ (64 < (k.1 - ⌊camPos.x / chunkWorldSizeR⌋) ^ 2 +
        (k.2 - ⌊camPos.z / chunkWorldSizeR⌋) ^ 2)) := by
  obtain ⟨h1, _, _, _, _⟩ := update_spec st camPos planes hnd hsync
  constructor
  · intro kx kz hd
    exact (h1 (kx, kz)).mpr hd
  · intro k hk
    have := (h1 k).mp hk
    omega

/-- Witness for C3 at the empty terrain state and the origin anchor. -/
theorem terrain_update_coverage_witness :
    (∀ kx kz : ℤ,
      (kx - ⌊(0 : ℝ) / chunkWorldSizeR⌋) ^ 2 + (kz - ⌊(0 : ℝ) / chunkWorldSizeR⌋) ^ 2 ≤ 16 →
      (kx, kz) ∈ (emptyTerrain.update ⟨0, 0, 0⟩ none).loadedChunks) ∧
    (∀ k ∈ (emptyTerrain.update ⟨0, 0, 0⟩ none).loadedChunks,
      ¬ (64 < (k.1 - ⌊(0 : ℝ) / chunkWorldSizeR⌋) ^ 2 +
        (k.2 - ⌊(0 : ℝ) / chunkWorldSizeR⌋) ^ 2)) :=
  terrain_update_coverage emptyTerrain ⟨0, 0, 0⟩ none List.nodup_nil
    (fun k => by simp [emptyTerrain])

/-- C4 amended: `update` never regenerates an already-loaded required
chunk — such a chunk keeps the LOD it was generated with, and only its
visibility flag is rewritten; only a required key that is not yet loaded is
generated, and it receives the distance-bucket LOD of this update,
`min(floor(distance/(maxDistance/lodLevels)), lodLevels-1)` (when
`autoLOD` is on). -/
theorem terrain_update_lod_assignment (st : TerrainState) (camPos : Vec3)
    (planes : Option (List FrustumPlane))
    (hnd : st.loadedChunks.Nodup)
    (hsync : ∀ k, k ∈ st.loadedChunks ↔ (st.chunks k).isSome)
    (kx kz : ℤ)
    (hreq : (kx - ⌊camPos.x / chunkWorldSizeR⌋) ^ 2 +
      (kz - ⌊camPos.z / chunkWorldSizeR⌋) ^ 2 ≤ 16) :
    (∀ c, st.chunks (kx, kz) = some c → (kx, kz) ∈ st.loadedChunks →
      ∃ v, (st.update camPos planes).chunks (kx, kz) = some { c with visible := v }) ∧
    ((kx, kz) ∉ st.loadedChunks →
      ∃ c, (st.update camPos planes).chunks (kx, kz) = some c ∧
        c.lod = (if st.settings.autoLOD then chunkLod kx kz camPos else 0)) := by
  obtain ⟨_, h2, h3, _, _⟩ := update_spec st camPos planes hnd hsync
  exact ⟨fun c hc hl => h2 (kx, kz) c hc hl hreq, fun hnl => h3 kx kz hnl hreq⟩

/-- Witness for the amended statement of C4: generating the origin chunk from
the empty state assigns it LOD 0. -/
theorem terrain_update_lod_assignment_witness :
    ((0 : ℤ), (0 : ℤ)) ∉ emptyTerrain.loadedChunks ∧
    (∃ c, (emptyTerrain.update ⟨0, 0, 0⟩ none).chunks (0, 0) = some c ∧
      c.lod = (if emptyTerrain.settings.autoLOD then chunkLod 0 0 ⟨0, 0, 0⟩ else 0)) := by
  refine ⟨by simp [emptyTerrain], ?_⟩
  exact (terrain_update_lod_assignment emptyTerrain ⟨0, 0, 0⟩ none List.nodup_nil
    (fun k => by simp [emptyTerrain]) 0 0 (by simp [chunkWorldSizeR])).2
    (by simp [emptyTerrain])

/-- The distance bucket of key `(0,0)` seen from anchor `(1500, 0, 0)`:
the chunk of the anchor is `(3, 0)`, the distance is 3 and the bucket width is
`maxDistance / lodLevels = 1`, so the LOD is 3. -/
theorem chunkLod_far_scenario : chunkLod 0 0 ⟨1500, 0, 0⟩ = 3 := by
  unfold chunkLod
  dsimp only
  rw [show (1500 : ℝ) / chunkWorldSizeR = ((3 : ℤ) : ℝ) by
      norm_num [chunkWorldSizeR],
    Int.floor_intCast,
    show (0 : ℝ) / chunkWorldSizeR = ((0 : ℤ) : ℝ) by norm_num [chunkWorldSizeR],
    Int.floor_intCast]
  rw [show ((((0 : ℤ) - 3 : ℤ)) : ℝ) ^ 2 + ((((0 : ℤ) - 0 : ℤ)) : ℝ) ^ 2 = 3 ^ 2 by
      norm_num,
    Real.sqrt_sq (by norm_num : (0 : ℝ) ≤ 3)]
  rw [show maxDistanceR / (lodLevelsN : ℝ) = 1 by
      norm_num [maxDistanceR, renderDistanceR, chunkWorldSizeR, lodLevelsN]]
  rw [div_one]
  rw [show ((3 : ℝ)) = ((3 : ℤ) : ℝ) by norm_num, Int.floor_intCast]
  rfl

/-- The distance bucket of key `(0,0)` seen from the origin anchor is 0. -/
theorem chunkLod_origin : chunkLod 0 0 ⟨0, 0, 0⟩ = 0 := by
  unfold chunkLod
  dsimp only
  rw [show (0 : ℝ) / chunkWorldSizeR = ((0 : ℤ) : ℝ) by norm_num [chunkWorldSizeR],
    Int.floor_intCast]
  rw [show ((((0 : ℤ) - 0 : ℤ)) : ℝ) ^ 2 + ((((0 : ℤ) - 0 : ℤ)) : ℝ) ^ 2 = 0 by norm_num,
    Real.sqrt_zero]
  rw [show (0 : ℝ) / (maxDistanceR / (lodLevelsN : ℝ)) = 0 by
      norm_num [maxDistanceR, renderDistanceR, chunkWorldSizeR, lodLevelsN],
    Int.floor_zero]
  rfl

/-- C4 counterexample: drive two updates — first from the origin (chunk
`(0,0)` is generated at LOD 0), then from anchor `(1500, 0, 0)` where the
key `(0,0)` is still required but its distance bucket is now 3.  The chunk
stays loaded with LOD 0, differing from the distance-bucket
formula: a loaded chunk is never regenerated when its required LOD
changes. -/
theorem terrain_lod_stale_counterexample :
    ∃ c, ((emptyTerrain.update ⟨0, 0, 0⟩ none).update ⟨1500, 0, 0⟩ none).chunks (0, 0) =
        some c ∧
      c.lod = 0 ∧
      chunkLod 0 0 ⟨1500, 0, 0⟩ = 3 ∧
      c.lod ≠ chunkLod 0 0 ⟨1500, 0, 0⟩ := by
  obtain ⟨h1a, _, h1c, h1nd, h1sync⟩ :=
    update_spec emptyTerrain ⟨0, 0, 0⟩ none List.nodup_nil (fun k => by simp [emptyTerrain])
  obtain ⟨c1, hc1, hlod1⟩ := h1c 0 0 (by simp [emptyTerrain]) (by simp [chunkWorldSizeR])
  have hauto : emptyTerrain.settings.autoLOD = true := rfl
  have hlod1' : c1.lod = 0 := by
    rw [hlod1, if_pos hauto, chunkLod_origin]
  have hmem1 : ((0 : ℤ), (0 : ℤ)) ∈ (emptyTerrain.update ⟨0, 0, 0⟩ none).loadedChunks :=
    (h1a (0, 0)).mpr (by simp [chunkWorldSizeR])
  obtain ⟨_, h2b, _, _, _⟩ :=
    update_spec (emptyTerrain.update ⟨0, 0, 0⟩ none) ⟨1500, 0, 0⟩ none h1nd h1sync
  have hreq2 : (((0 : ℤ), (0 : ℤ)).1 - ⌊(1500 : ℝ) / chunkWorldSizeR⌋) ^ 2 +
      (((0 : ℤ), (0 : ℤ)).2 - ⌊(0 : ℝ) / chunkWorldSizeR⌋) ^ 2 ≤ 16 := by
    rw [show (1500 : ℝ) / chunkWorldSizeR = ((3 : ℤ) : ℝ) by norm_num [chunkWorldSizeR],
      Int.floor_intCast]
    simp [chunkWorldSizeR]
  obtain ⟨v, hv⟩ := h2b (0, 0) c1 hc1 hmem1 hreq2
  refine ⟨{ c1 with visible := v }, hv, ?_, chunkLod_far_scenario, ?_⟩
  · show c1.lod = 0
    exact hlod1'
  · show c1.lod ≠ chunkLod 0 0 ⟨1500, 0, 0⟩
    rw [hlod1', chunkLod_far_scenario]
    norm_num

end ZenDrive
